import Mathlib

/-!
# Morse-code GPIO state machine (`gpiointerruptt.c`)

A shallow embedding of the timer-driven Morse playback state machine:
the two step tables, the global playback variables, the per-tick function
`runStateMachine` and the two button callbacks.  `GPIO_write` calls are
collected as a list of writes returned next to the new state.  A table read
outside the array is undefined behaviour in C and is `none` here.
-/

namespace Morse

/-- Modelled from the spec: the two LED indices `CONFIG_GPIO_LED_0` and
`CONFIG_GPIO_LED_1` come from `ti_drivers_config.h`, which is not part of the
sources; the spec names them as two distinct outputs (OUTPUT_A, OUTPUT_B). -/
inductive Led where
  | CONFIG_GPIO_LED_0
  | CONFIG_GPIO_LED_1
  deriving DecidableEq, Repr

/-- Morse message selection (`MessageType`). -/
inductive MessageType where
  | MESSAGE_SOS
  | MESSAGE_OK
  deriving DecidableEq, Repr

/-- One table entry: LED index, LED on (`true`) or off, number of timer ticks. -/
structure MorseStep where
  led : Led
  state : Bool
  duration : Int
  deriving DecidableEq, Repr

/-- Modelled from the spec: the level constant `CONFIG_GPIO_LED_ON` of
`ti_drivers_config.h` (not part of the sources), the "on" level of an output. -/
def CONFIG_GPIO_LED_ON : Bool := true

/-- Modelled from the spec: the level constant `CONFIG_GPIO_LED_OFF` of
`ti_drivers_config.h` (not part of the sources), the "off" level of an output. -/
def CONFIG_GPIO_LED_OFF : Bool := false

/-- One call `GPIO_write(index, value)`. -/
structure GpioWrite where
  index : Led
  value : Bool
  deriving DecidableEq, Repr

open Led MessageType

/-- The table `SOS_steps`: `... --- ...`. -/
def SOS_steps : List MorseStep :=
  [ ⟨CONFIG_GPIO_LED_0, true, 1⟩,
    ⟨CONFIG_GPIO_LED_0, false, 1⟩,
    ⟨CONFIG_GPIO_LED_0, true, 1⟩,
    ⟨CONFIG_GPIO_LED_0, false, 1⟩,
    ⟨CONFIG_GPIO_LED_0, true, 1⟩,
    ⟨CONFIG_GPIO_LED_0, false, 3⟩,

    ⟨CONFIG_GPIO_LED_1, true, 3⟩,
    ⟨CONFIG_GPIO_LED_1, false, 1⟩,
    ⟨CONFIG_GPIO_LED_1, true, 3⟩,
    ⟨CONFIG_GPIO_LED_1, false, 1⟩,
    ⟨CONFIG_GPIO_LED_1, true, 3⟩,
    ⟨CONFIG_GPIO_LED_1, false, 3⟩,

    ⟨CONFIG_GPIO_LED_0, true, 1⟩,
    ⟨CONFIG_GPIO_LED_0, false, 1⟩,
    ⟨CONFIG_GPIO_LED_0, true, 1⟩,
    ⟨CONFIG_GPIO_LED_0, false, 1⟩,
    ⟨CONFIG_GPIO_LED_0, true, 1⟩,
    ⟨CONFIG_GPIO_LED_0, false, 3⟩ ]

/-- The macro `SOS_TOTAL_STEPS`: `sizeof(SOS_steps) / sizeof(MorseStep)`. -/
def SOS_TOTAL_STEPS : Int := SOS_steps.length

/-- The table `OK_steps`: `--- -.--`. -/
def OK_steps : List MorseStep :=
  [ ⟨CONFIG_GPIO_LED_1, true, 3⟩,
    ⟨CONFIG_GPIO_LED_1, false, 1⟩,
    ⟨CONFIG_GPIO_LED_1, true, 3⟩,
    ⟨CONFIG_GPIO_LED_1, false, 1⟩,
    ⟨CONFIG_GPIO_LED_1, true, 3⟩,
    ⟨CONFIG_GPIO_LED_1, false, 3⟩,

    ⟨CONFIG_GPIO_LED_1, true, 3⟩,
    ⟨CONFIG_GPIO_LED_1, false, 1⟩,
    ⟨CONFIG_GPIO_LED_0, true, 1⟩,
    ⟨CONFIG_GPIO_LED_0, false, 1⟩,
    ⟨CONFIG_GPIO_LED_1, true, 3⟩,
    ⟨CONFIG_GPIO_LED_1, false, 3⟩ ]

/-- The macro `OK_TOTAL_STEPS`: `sizeof(OK_steps) / sizeof(MorseStep)`. -/
def OK_TOTAL_STEPS : Int := OK_steps.length

/-- The global variables of the program.  `speedMultiplier` is a `uint8_t`
(values `0..255`), `currentStepIndex` and `remainingTicks` are `int`.
In the spec's words: `currentMessage` is activeMessage, `buttonPressed` is
switchRequested, `currentStepIndex` is stepIndex. -/
structure State where
  currentMessage : MessageType
  buttonPressed : Bool
  speedMultiplier : Nat
  currentStepIndex : Int
  remainingTicks : Int
  deriving DecidableEq, Repr

/-- The initialisers of the globals: SOS, no button press, speed 1, index 0,
no remaining ticks. -/
def init : State :=
  { currentMessage := MESSAGE_SOS
    buttonPressed := false
    speedMultiplier := 1
    currentStepIndex := 0
    remainingTicks := 0 }

/-- The array read `steps[i]`: `none` when `i` is outside the array. -/
def readStep (steps : List MorseStep) (i : Int) : Option MorseStep :=
  if 0 ≤ i then steps[i.toNat]? else none

/-- The table selected by `currentMessage` at the head of `runStateMachine`. -/
def selectSteps (m : MessageType) : List MorseStep :=
  match m with
  | MESSAGE_SOS => SOS_steps
  | MESSAGE_OK => OK_steps

/-- The value of `totalSteps` selected by `currentMessage`. -/
def selectTotal (m : MessageType) : Int :=
  match m with
  | MESSAGE_SOS => SOS_TOTAL_STEPS
  | MESSAGE_OK => OK_TOTAL_STEPS

/-- The tail of `runStateMachine`: `if (remainingTicks > 0) remainingTicks--`. -/
def consumeTick (s : State) : State :=
  if s.remainingTicks > 0 then { s with remainingTicks := s.remainingTicks - 1 } else s

/-- The function `runStateMachine`: the new globals and the `GPIO_write` calls
made, or `none` when the table is read outside its bounds. -/
def runStateMachine (s : State) : Option (State × List GpioWrite) :=
  let steps := selectSteps s.currentMessage
  let totalSteps := selectTotal s.currentMessage
  if s.remainingTicks ≤ 0 then
    if s.currentStepIndex < totalSteps then
      match readStep steps s.currentStepIndex with
      | none => none
      | some st =>
        let w : GpioWrite :=
          ⟨st.led, if st.state then CONFIG_GPIO_LED_ON else CONFIG_GPIO_LED_OFF⟩
        let sp := if s.speedMultiplier = 0 then 1 else s.speedMultiplier
        let s1 : State :=
          { s with
            speedMultiplier := sp
            remainingTicks := st.duration * (sp : Int)
            currentStepIndex := s.currentStepIndex + 1 }
        some (consumeTick s1, [w])
    else
      let s1 : State := { s with currentStepIndex := 0 }
      let s2 : State :=
        if s1.buttonPressed then
          { s1 with
            buttonPressed := false
            currentMessage :=
              if s1.currentMessage = MESSAGE_SOS then MESSAGE_OK else MESSAGE_SOS }
        else s1
      some (consumeTick s2, [])
  else
    some (consumeTick s, [])

/-- The timer callback: it only calls `runStateMachine` (its two arguments
are not used). -/
def timerCallback (s : State) : Option (State × List GpioWrite) :=
  runStateMachine s

/-- Button 0 callback: `buttonPressed = true`; it makes no `GPIO_write` call.
Its argument `index` is not used and is left out. -/
def gpioButtonFxn0 (s : State) : State × List GpioWrite :=
  ({ s with buttonPressed := true }, [])

/-- Button 1 callback: cycles the speed `1 → 2 → 3 → 1` (anything else goes
to 1); it makes no `GPIO_write` call.  Its argument `index` is not used and is
left out. -/
def gpioButtonFxn1 (s : State) : State × List GpioWrite :=
  if s.speedMultiplier = 1 then ({ s with speedMultiplier := 2 }, [])
  else if s.speedMultiplier = 2 then ({ s with speedMultiplier := 3 }, [])
  else ({ s with speedMultiplier := 1 }, [])

/-- The three asynchronous entry points: the periodic timer and the two
button interrupts. -/
inductive Event where
  | tick
  | button0
  | button1
  deriving DecidableEq, Repr

/-- One entry point run to completion on the globals. -/
def applyEvent (s : State) (e : Event) : Option (State × List GpioWrite) :=
  match e with
  | Event.tick => timerCallback s
  | Event.button0 => some (gpioButtonFxn0 s)
  | Event.button1 => some (gpioButtonFxn1 s)

/-- A finite sequence of entry points run one after the other, with the
`GPIO_write` calls in the order they are made. -/
def runEvents (s : State) : List Event → Option (State × List GpioWrite)
  | [] => some (s, [])
  | e :: es =>
    (applyEvent s e).bind fun p =>
      (runEvents p.1 es).map fun q => (q.1, p.2 ++ q.2)

/-- The timer firing `n` times with no button event. -/
def runTicks (n : Nat) (s : State) : Option (State × List GpioWrite) :=
  runEvents s (List.replicate n Event.tick)

/-- The write made when a table entry is committed. -/
def writeOf (st : MorseStep) : GpioWrite :=
  ⟨st.led, if st.state then CONFIG_GPIO_LED_ON else CONFIG_GPIO_LED_OFF⟩

/-- The other message. -/
def flipMessage (m : MessageType) : MessageType :=
  if m = MESSAGE_SOS then MESSAGE_OK else MESSAGE_SOS

/-- The writes of one full pass through `SOS_steps`, in table order. -/
def sosWrites : List GpioWrite := SOS_steps.map writeOf

/-- The writes of one full pass through `OK_steps`, in table order. -/
def okWrites : List GpioWrite := OK_steps.map writeOf

/-- The invariant of an undisturbed SOS playback after `n` ticks: SOS is
active, no switch is pending, the index is inside `[0, 18]`, and the writes
made so far are `q` full passes of the table followed by its first
`currentStepIndex` entries. -/
def SosLoopInv (n : Nat) (s : State) (ws : List GpioWrite) : Prop :=
  s.currentMessage = MESSAGE_SOS ∧ s.buttonPressed = false ∧
  0 ≤ s.currentStepIndex ∧ s.currentStepIndex ≤ SOS_TOTAL_STEPS ∧
  ∃ q : Nat,
    ws = (List.replicate q sosWrites).flatten ++ sosWrites.take s.currentStepIndex.toNat ∧
    q + (if s.currentStepIndex = 0 then 0 else 1) ≤ n

/-- The number of timer ticks in a sequence of events. -/
def countTicks (es : List Event) : Nat := es.count Event.tick

/-- A boundary state: the held step is over and the whole table has been
played, so that the next call of `runStateMachine` takes the reset branch. -/
def atBoundary (s : State) : Prop :=
  s.remainingTicks ≤ 0 ∧ selectTotal s.currentMessage ≤ s.currentStepIndex

instance decidableAtBoundary (s : State) : Decidable (atBoundary s) := by
  unfold atBoundary
  exact inferInstance

/-- No timer tick of the sequence is a boundary tick: every tick in it runs
from a state that is not a boundary state. -/
def noBoundaryTick : State → List Event → Bool
  | _, [] => true
  | s, e :: es =>
    (decide (e ≠ Event.tick) || decide (¬ atBoundary s)) &&
      match applyEvent s e with
      | none => true
      | some p => noBoundaryTick p.1 es

/-- Five ticks, two presses of button 0, then the 25 ticks that finish the
SOS pass: a sample run with several switch requests before the boundary. -/
def twoRequestsRun : List Event :=
  List.replicate 5 Event.tick ++ [Event.button0, Event.button0] ++ List.replicate 25 Event.tick

/-- The states the program can be in: those reached from the initial values
of the globals by a finite sequence of timer ticks and button interrupts. -/
def Reachable (s : State) : Prop :=
  ∃ es ws, runEvents init es = some (s, ws)

/-- A state right after the last SOS step has been held: index 18, nothing
remaining, a switch pending. -/
def sosEndPending : State :=
  { currentMessage := MESSAGE_SOS
    buttonPressed := true
    speedMultiplier := 1
    currentStepIndex := 18
    remainingTicks := 0 }

/-- A state about to commit the long gap of SOS (step 5) with the speed
forced to 0. -/
def sosGapSpeedZero : State :=
  { currentMessage := MESSAGE_SOS
    buttonPressed := false
    speedMultiplier := 0
    currentStepIndex := 5
    remainingTicks := 0 }

/-- The initial state with the speed set to 3. -/
def initSpeed3 : State := { init with speedMultiplier := 3 }

/-- The per-tick log of `n` timer ticks with no button event: the final
globals and, for each tick in order, the `GPIO_write` calls made on it. -/
def tickLog : Nat → State → Option (State × List (List GpioWrite))
  | 0, s => some (s, [])
  | n + 1, s =>
    (runStateMachine s).bind fun p =>
      (tickLog n p.1).map fun q => (q.1, p.2 :: q.2)

/-- The per-tick pattern of one pass through a table at speed 1: for each
step in table order, one tick with the step's write, then `duration - 1` ticks
with no write. -/
def holdPattern (steps : List MorseStep) : List (List GpioWrite) :=
  (steps.map fun st => [writeOf st] :: List.replicate (st.duration - 1).toNat []).flatten

/-- The per-tick pattern of one period of the SOS loop at speed 1: the 30
ticks of the pass, then the boundary tick, on which nothing is written. -/
def sosPeriod : List (List GpioWrite) := holdPattern SOS_steps ++ [[]]

/-- The numbers of the ticks of a per-tick log on which a write is made,
counting the first tick of the log as tick `t`. -/
def writeTicksFrom : Nat → List (List GpioWrite) → List Nat
  | _, [] => []
  | t, w :: l => if w = [] then writeTicksFrom (t + 1) l else t :: writeTicksFrom (t + 1) l

/-- The numbers of the ticks on which a write is made, the first tick being
tick 1. -/
def writeTicks (l : List (List GpioWrite)) : List Nat := writeTicksFrom 1 l

/-- The distances between consecutive entries of a list of tick numbers. -/
def gaps : List Nat → List Int
  | a :: b :: l => ((b : Int) - a) :: gaps (b :: l)
  | _ => []

/-- The invariant of the playback globals: the index is inside
`[0, totalSteps]` of the active table, `remainingTicks` is not negative and
the speed is one of 1, 2, 3. -/
def CursorInv (s : State) : Prop :=
  0 ≤ s.currentStepIndex ∧ s.currentStepIndex ≤ selectTotal s.currentMessage ∧
  0 ≤ s.remainingTicks ∧
  (s.speedMultiplier = 1 ∨ s.speedMultiplier = 2 ∨ s.speedMultiplier = 3)

/-- A state in the middle of the dash of SOS step 6 (duration 3): two ticks
remain, a switch is pending, speed 2. -/
def sosMidDash : State :=
  { currentMessage := MESSAGE_SOS
    buttonPressed := true
    speedMultiplier := 2
    currentStepIndex := 7
    remainingTicks := 2 }

/-- A state about to commit the first dot of SOS (step 0, duration 1) at
speed 1. -/
def sosFirstDot : State := init

/-- The memory of the program with the two tables in it: in C `SOS_steps`
and `OK_steps` are global arrays that are not declared `const`. -/
structure Memory where
  sosTable : List MorseStep
  okTable : List MorseStep
  globals : State
  deriving DecidableEq, Repr

/-- The memory at startup: the two tables as initialised and the initial
values of the other globals. -/
def initMemory : Memory :=
  { sosTable := SOS_steps, okTable := OK_steps, globals := init }

/-- The body of `runStateMachine` reading the tables it is given: the new
values of the globals it assigns and the `GPIO_write` calls made.  `totalSteps`
is the compile-time constant `SOS_TOTAL_STEPS` or `OK_TOTAL_STEPS`. -/
def runStateMachineOn (sos ok : List MorseStep) (s : State) :
    Option (State × List GpioWrite) :=
  let steps := if s.currentMessage = MESSAGE_SOS then sos else ok
  let totalSteps := if s.currentMessage = MESSAGE_SOS then SOS_TOTAL_STEPS else OK_TOTAL_STEPS
  if s.remainingTicks ≤ 0 then
    if s.currentStepIndex < totalSteps then
      match readStep steps s.currentStepIndex with
      | none => none
      | some st =>
        let w : GpioWrite :=
          ⟨st.led, if st.state then CONFIG_GPIO_LED_ON else CONFIG_GPIO_LED_OFF⟩
        let sp := if s.speedMultiplier = 0 then 1 else s.speedMultiplier
        let s1 : State :=
          { s with
            speedMultiplier := sp
            remainingTicks := st.duration * (sp : Int)
            currentStepIndex := s.currentStepIndex + 1 }
        some (consumeTick s1, [w])
    else
      let s1 : State := { s with currentStepIndex := 0 }
      let s2 : State :=
        if s1.buttonPressed then
          { s1 with
            buttonPressed := false
            currentMessage :=
              if s1.currentMessage = MESSAGE_SOS then MESSAGE_OK else MESSAGE_SOS }
        else s1
      some (consumeTick s2, [])
  else
    some (consumeTick s, [])

/-- One entry point run on the whole memory.  None of the three functions
contains an assignment to an element of `SOS_steps` or `OK_steps`: only the
other globals are written back. -/
def stepMemory (m : Memory) (e : Event) : Option (Memory × List GpioWrite) :=
  match e with
  | Event.tick =>
    (runStateMachineOn m.sosTable m.okTable m.globals).map fun p =>
      ({ m with globals := p.1 }, p.2)
  | Event.button0 =>
    some ({ m with globals := (gpioButtonFxn0 m.globals).1 }, (gpioButtonFxn0 m.globals).2)
  | Event.button1 =>
    some ({ m with globals := (gpioButtonFxn1 m.globals).1 }, (gpioButtonFxn1 m.globals).2)

/-- The start of a pass of SOS at speed `k` with no switch pending. -/
def sosStart (k : Nat) : State := { init with speedMultiplier := k }

/-- The start of a pass of OK at speed `k` with no switch pending. -/
def okStart (k : Nat) : State :=
  { init with currentMessage := MESSAGE_OK, speedMultiplier := k }

/-- The per-tick pattern of one pass through a table at speed `k`: for each
step in table order, one tick with the step's write, then `duration * k - 1`
ticks with no write. -/
def holdPatternAt (k : Nat) (steps : List MorseStep) : List (List GpioWrite) :=
  (steps.map fun st => [writeOf st] :: List.replicate (st.duration * (k : Int) - 1).toNat []).flatten

/-- The levels of the two LED outputs. -/
structure Levels where
  led0 : Bool
  led1 : Bool
  deriving DecidableEq, Repr

/-- Modelled from the spec: the driver call `GPIO_write(index, value)` of
`ti/drivers/GPIO.h` (not part of the sources) sets the level of the output
`index` to `value` and leaves the other output as it is. -/
def GPIO_write (lv : Levels) (w : GpioWrite) : Levels :=
  match w.index with
  | CONFIG_GPIO_LED_0 => { lv with led0 := w.value }
  | CONFIG_GPIO_LED_1 => { lv with led1 := w.value }

/-- The levels after a list of `GPIO_write` calls made in order. -/
def applyWrites (lv : Levels) (ws : List GpioWrite) : Levels :=
  ws.foldl GPIO_write lv

/-- The levels `mainThread` leaves before it starts the timer: both LEDs are
configured low (`GPIO_CFG_OUT_LOW`), then LED 0 is written on. -/
def startupLevels : Levels :=
  GPIO_write { led0 := CONFIG_GPIO_LED_OFF, led1 := CONFIG_GPIO_LED_OFF }
    ⟨CONFIG_GPIO_LED_0, CONFIG_GPIO_LED_ON⟩

/-- The levels after the first `j` steps of the table of message `m` have
been written, starting from the levels `b`. -/
def levelsAfter (b : Levels) (m : MessageType) (j : Nat) : Levels :=
  applyWrites b (((selectSteps m).take j).map writeOf)

/-- The link between the globals and the LED levels: the levels are those
after the first `currentStepIndex` steps of the active table, starting from
both LEDs off, or, during the first pass of SOS, from the startup levels. -/
def LedInv (s : State) (lv : Levels) : Prop :=
  ∃ j : Nat, s.currentStepIndex = (j : Int) ∧ j ≤ (selectSteps s.currentMessage).length ∧
    (lv = levelsAfter ⟨false, false⟩ s.currentMessage j ∨
      (s.currentMessage = MESSAGE_SOS ∧ lv = levelsAfter ⟨true, false⟩ MESSAGE_SOS j))

/-- The number of steps of a table whose commit falls within the first `r`
ticks of a pass at speed 1: step `i` is committed once the durations of the
steps before it have all elapsed, that is on tick
`1 + duration 0 + ... + duration (i-1)`. -/
def commitsWithin (steps : List MorseStep) (r : Nat) : Nat :=
  ((List.range steps.length).filter fun i =>
    decide (((steps.take i).map fun st => st.duration).sum < (r : Int))).length

/-! ## One tick, by case -/

theorem consumeTick_currentMessage (s : State) :
    (consumeTick s).currentMessage = s.currentMessage := by
  unfold consumeTick; split <;> rfl

theorem consumeTick_buttonPressed (s : State) :
    (consumeTick s).buttonPressed = s.buttonPressed := by
  unfold consumeTick; split <;> rfl

theorem consumeTick_speedMultiplier (s : State) :
    (consumeTick s).speedMultiplier = s.speedMultiplier := by
  unfold consumeTick; split <;> rfl

theorem consumeTick_currentStepIndex (s : State) :
    (consumeTick s).currentStepIndex = s.currentStepIndex := by
  unfold consumeTick; split <;> rfl

theorem consumeTick_remainingTicks_pos (s : State) (h : 0 < s.remainingTicks) :
    (consumeTick s).remainingTicks = s.remainingTicks - 1 := by
  unfold consumeTick; simp [h]

theorem runStateMachine_hold (s : State) (h : 0 < s.remainingTicks) :
    runStateMachine s = some ({ s with remainingTicks := s.remainingTicks - 1 }, []) := by
  have h1 : ¬ s.remainingTicks ≤ 0 := not_le.mpr h
  simp [runStateMachine, consumeTick, h1, h]

theorem runStateMachine_boundary (s : State) (h : s.remainingTicks ≤ 0)
    (hi : selectTotal s.currentMessage ≤ s.currentStepIndex) :
    runStateMachine s =
      some ({ s with
              currentStepIndex := 0
              buttonPressed := false
              currentMessage :=
                if s.buttonPressed then flipMessage s.currentMessage
                else s.currentMessage }, []) := by
  have h1 : ¬ s.currentStepIndex < selectTotal s.currentMessage := not_lt.mpr hi
  have h2 : ¬ 0 < s.remainingTicks := not_lt.mpr h
  cases hb : s.buttonPressed <;>
    simp [runStateMachine, consumeTick, flipMessage, h, h1, h2, hb]

theorem runStateMachine_commit (s : State) (st : MorseStep) (h : s.remainingTicks ≤ 0)
    (hi : s.currentStepIndex < selectTotal s.currentMessage)
    (hr : readStep (selectSteps s.currentMessage) s.currentStepIndex = some st) :
    runStateMachine s =
      some (consumeTick
              { s with
                speedMultiplier := if s.speedMultiplier = 0 then 1 else s.speedMultiplier
                remainingTicks :=
                  st.duration * ((if s.speedMultiplier = 0 then 1 else s.speedMultiplier : Nat) : Int)
                currentStepIndex := s.currentStepIndex + 1 }, [writeOf st]) := by
  simp [runStateMachine, h, hi, hr, writeOf]

theorem runStateMachine_commit_fields (s : State) (st : MorseStep)
    (h : s.remainingTicks ≤ 0)
    (hi : s.currentStepIndex < selectTotal s.currentMessage)
    (hr : readStep (selectSteps s.currentMessage) s.currentStepIndex = some st)
    (hd : 1 ≤ st.duration) :
    ∃ s1, runStateMachine s = some (s1, [writeOf st]) ∧
      s1.currentMessage = s.currentMessage ∧ s1.buttonPressed = s.buttonPressed ∧
      s1.speedMultiplier = (if s.speedMultiplier = 0 then 1 else s.speedMultiplier) ∧
      s1.currentStepIndex = s.currentStepIndex + 1 ∧
      s1.remainingTicks =
        st.duration * ((if s.speedMultiplier = 0 then 1 else s.speedMultiplier : Nat) : Int) - 1 := by
  refine ⟨_, runStateMachine_commit s st h hi hr, ?_, ?_, ?_, ?_, ?_⟩
  · rw [consumeTick_currentMessage]
  · rw [consumeTick_buttonPressed]
  · rw [consumeTick_speedMultiplier]
  · rw [consumeTick_currentStepIndex]
  · rw [consumeTick_remainingTicks_pos]
    have hk : (1 : Int) ≤ ((if s.speedMultiplier = 0 then 1 else s.speedMultiplier : Nat) : Int) := by
      split
      · simp
      · have : 1 ≤ s.speedMultiplier := by omega
        exact_mod_cast this
    show 0 < st.duration * _
    exact Int.mul_pos (by omega) (by omega)

theorem readStep_natCast (steps : List MorseStep) (j : Nat) :
    readStep steps (j : Int) = steps[j]? := by
  simp [readStep]

theorem readStep_some_of_range (steps : List MorseStep) (i : Int) (h0 : 0 ≤ i)
    (h1 : i < (steps.length : Int)) : ∃ st, readStep steps i = some st := by
  obtain ⟨j, rfl⟩ := Int.eq_ofNat_of_zero_le h0
  have hj : j < steps.length := by exact_mod_cast h1
  exact ⟨steps[j], by rw [readStep_natCast]; exact List.getElem?_eq_getElem hj⟩

theorem selectTotal_eq_length (m : MessageType) :
    selectTotal m = ((selectSteps m).length : Int) := by
  cases m <;> rfl

theorem duration_pos_of_mem_SOS : ∀ st ∈ SOS_steps, 1 ≤ st.duration := by decide

theorem duration_pos_of_mem_OK : ∀ st ∈ OK_steps, 1 ≤ st.duration := by decide

theorem duration_pos_of_readStep (m : MessageType) (i : Int) (st : MorseStep)
    (h : readStep (selectSteps m) i = some st) : 1 ≤ st.duration := by
  unfold readStep at h
  split at h
  · have hm : st ∈ selectSteps m := List.getElem?_mem h
    cases m
    · exact duration_pos_of_mem_SOS st hm
    · exact duration_pos_of_mem_OK st hm
  · cases h

/-! ## Sequences of events -/

theorem runEvents_append (s : State) (es fs : List Event) :
    runEvents s (es ++ fs) =
      (runEvents s es).bind fun p =>
        (runEvents p.1 fs).map fun q => (q.1, p.2 ++ q.2) := by
  induction es generalizing s with
  | nil =>
    simp only [List.nil_append, runEvents, Option.some_bind, List.nil_append]
    cases runEvents s fs <;> simp
  | cons e es ih =>
    rw [List.cons_append]
    simp only [runEvents]
    cases applyEvent s e with
    | none => rfl
    | some p =>
      simp only [Option.some_bind, ih]
      cases runEvents p.1 es with
      | none => rfl
      | some q =>
        simp only [Option.some_bind, Option.map_some']
        cases runEvents q.1 fs with
        | none => rfl
        | some r => simp [List.append_assoc]

theorem runEvents_singleton (s : State) (e : Event) :
    runEvents s [e] = applyEvent s e := by
  simp only [runEvents]
  cases applyEvent s e with
  | none => rfl
  | some p => simp

theorem runTicks_succ (n : Nat) (s : State) :
    runTicks (n + 1) s =
      (runTicks n s).bind fun p =>
        (runStateMachine p.1).map fun q => (q.1, p.2 ++ q.2) := by
  unfold runTicks
  rw [List.replicate_succ', runEvents_append]
  simp only [runEvents_singleton, applyEvent, timerCallback]

theorem runTicks_zero (s : State) : runTicks 0 s = some (s, []) := rfl

/-! ## Undisturbed SOS playback -/

theorem replicate_flatten_mono (T : List GpioWrite) (a b : Nat) (h : a ≤ b) :
    (List.replicate a T).flatten <+: (List.replicate b T).flatten := by
  obtain ⟨c, rfl⟩ := Nat.exists_eq_add_of_le h
  rw [List.replicate_add, List.flatten_append]
  exact List.prefix_append _ _

theorem sosLoopInv_writes (n : Nat) (s : State) (ws : List GpioWrite)
    (h : SosLoopInv n s ws) : ws <+: (List.replicate n sosWrites).flatten := by
  obtain ⟨-, -, -, -, q, hw, hq⟩ := h
  by_cases hi : s.currentStepIndex = 0
  · simp only [hi, if_true, Nat.add_zero] at hq
    rw [hw, hi]
    simpa using replicate_flatten_mono sosWrites q n hq
  · simp only [hi, if_false] at hq
    refine List.IsPrefix.trans ?_ (replicate_flatten_mono sosWrites (q + 1) n hq)
    rw [hw, List.replicate_succ', List.flatten_append]
    refine (List.prefix_append_right_inj _).mpr ?_
    simpa using List.take_prefix _ sosWrites

theorem sosLoopInv_step (n : Nat) (s : State) (ws : List GpioWrite)
    (h : SosLoopInv n s ws) :
    ∃ s1 w1, runStateMachine s = some (s1, w1) ∧ SosLoopInv (n + 1) s1 (ws ++ w1) := by
  obtain ⟨hm, hb, h0, h18, q, hw, hq⟩ := h
  have hlen : SOS_TOTAL_STEPS = 18 := rfl
  by_cases hr : 0 < s.remainingTicks
  · refine ⟨_, _, runStateMachine_hold s hr, hm, hb, h0, h18, q, ?_, ?_⟩
    · simpa using hw
    · exact Nat.le_succ_of_le hq
  · have hr0 : s.remainingTicks ≤ 0 := not_lt.mp hr
    by_cases hi : s.currentStepIndex < SOS_TOTAL_STEPS
    · obtain ⟨j, hj⟩ := Int.eq_ofNat_of_zero_le h0
      have hjlt : j < SOS_steps.length := by
        have : (j : Int) < (SOS_steps.length : Int) := by rw [← hj]; exact hi
        exact_mod_cast this
      have hget : SOS_steps[j]? = some SOS_steps[j] := List.getElem?_eq_getElem hjlt
      have hread : readStep (selectSteps s.currentMessage) s.currentStepIndex
          = some SOS_steps[j] := by
        rw [hm, hj, readStep_natCast]
        exact hget
      have hi2 : s.currentStepIndex < selectTotal s.currentMessage := by rw [hm]; exact hi
      obtain ⟨s1, hrun, e1, e2, -, e4, -⟩ :=
        runStateMachine_commit_fields s _ hr0 hi2 hread
          (duration_pos_of_readStep _ _ _ hread)
      refine ⟨s1, _, hrun, e1.trans hm, e2.trans hb, by omega, by omega, q, ?_, ?_⟩
      · have hidx : s1.currentStepIndex.toNat = j + 1 := by rw [e4, hj]; omega
        have hidx0 : s.currentStepIndex.toNat = j := by rw [hj]; omega
        rw [hidx, List.take_succ, hw, hidx0, List.append_assoc]
        congr 2
        have hmap : sosWrites[j]? = some (writeOf SOS_steps[j]) := by
          unfold sosWrites
          rw [List.getElem?_map, hget]
          rfl
        rw [hmap]
        rfl
      · have hne : s1.currentStepIndex ≠ 0 := by omega
        simp only [hne, if_false]
        split at hq <;> omega
    · have hi2 : selectTotal s.currentMessage ≤ s.currentStepIndex := by
        rw [hm]; exact not_lt.mp hi
      have hi18 : s.currentStepIndex = SOS_TOTAL_STEPS := le_antisymm h18 (not_lt.mp hi)
      refine ⟨_, _, runStateMachine_boundary s hr0 hi2, ?_⟩
      refine ⟨?_, rfl, le_refl _, (show (0 : Int) ≤ SOS_TOTAL_STEPS by decide), q + 1, ?_, ?_⟩
      · simp [hb, hm]
      · show ws ++ [] = (List.replicate (q + 1) sosWrites).flatten ++ List.take (0 : Int).toNat sosWrites
        rw [hw, hi18, List.replicate_succ', List.flatten_append]
        simp [SOS_TOTAL_STEPS, sosWrites, SOS_steps]
      · have hne : s.currentStepIndex ≠ 0 := by rw [hi18]; decide
        simp only [hne, if_false] at hq
        simp only [if_true]
        omega

theorem sosLoopInv_runTicks (n : Nat) :
    ∃ s ws, runTicks n init = some (s, ws) ∧ SosLoopInv n s ws := by
  induction n with
  | zero =>
    refine ⟨init, [], rfl, rfl, rfl, le_refl _, by decide, 0, ?_, ?_⟩ <;> simp [init]
  | succ n ih =>
    obtain ⟨s, ws, hrun, hinv⟩ := ih
    obtain ⟨s1, w1, hstep, hinv1⟩ := sosLoopInv_step n s ws hinv
    exact ⟨s1, ws ++ w1, by simp [runTicks_succ, hrun, hstep], hinv1⟩

/-! ## Holding a committed step -/

theorem gpioButtonFxn1_frame (s : State) :
    (gpioButtonFxn1 s).2 = [] ∧
      (gpioButtonFxn1 s).1.currentMessage = s.currentMessage ∧
      (gpioButtonFxn1 s).1.buttonPressed = s.buttonPressed ∧
      (gpioButtonFxn1 s).1.currentStepIndex = s.currentStepIndex ∧
      (gpioButtonFxn1 s).1.remainingTicks = s.remainingTicks := by
  unfold gpioButtonFxn1
  split
  · exact ⟨rfl, rfl, rfl, rfl, rfl⟩
  · split <;> exact ⟨rfl, rfl, rfl, rfl, rfl⟩

theorem runEvents_cons (s : State) (e : Event) (es : List Event) :
    runEvents s (e :: es) =
      (applyEvent s e).bind fun p => (runEvents p.1 es).map fun q => (q.1, p.2 ++ q.2) := rfl

theorem countTicks_cons_tick (es : List Event) :
    countTicks (Event.tick :: es) = countTicks es + 1 := by
  simp [countTicks]

theorem countTicks_cons_button0 (es : List Event) :
    countTicks (Event.button0 :: es) = countTicks es := by
  simp [countTicks]

theorem countTicks_cons_button1 (es : List Event) :
    countTicks (Event.button1 :: es) = countTicks es := by
  simp [countTicks]

/-- While a step is held, ticks only count `remainingTicks` down and button
interrupts change neither the index, the message nor `remainingTicks`. -/
theorem hold_runEvents (es : List Event) (s : State)
    (h : (countTicks es : Int) ≤ s.remainingTicks) :
    ∃ s2, runEvents s es = some (s2, []) ∧
      s2.currentStepIndex = s.currentStepIndex ∧
      s2.currentMessage = s.currentMessage ∧
      s2.remainingTicks = s.remainingTicks - countTicks es := by
  induction es generalizing s with
  | nil => exact ⟨s, rfl, rfl, rfl, by simp [countTicks]⟩
  | cons e es ih =>
    cases e with
    | tick =>
      rw [countTicks_cons_tick] at h ⊢
      have hpos : 0 < s.remainingTicks := by push_cast at h; omega
      obtain ⟨s2, h1, h2, h3, h4⟩ :=
        ih { s with remainingTicks := s.remainingTicks - 1 } (by push_cast at h ⊢; show _ ≤ s.remainingTicks - 1; omega)
      refine ⟨s2, ?_, h2, h3, ?_⟩
      · simp [runEvents_cons, applyEvent, timerCallback, runStateMachine_hold s hpos, h1]
      · rw [h4]; push_cast; show s.remainingTicks - 1 - _ = _; omega
    | button0 =>
      rw [countTicks_cons_button0] at h ⊢
      obtain ⟨s2, h1, h2, h3, h4⟩ := ih { s with buttonPressed := true } h
      exact ⟨s2, by simp [runEvents_cons, applyEvent, gpioButtonFxn0, h1], h2, h3, h4⟩
    | button1 =>
      rw [countTicks_cons_button1] at h ⊢
      obtain ⟨f1, f2, -, f4, f5⟩ := gpioButtonFxn1_frame s
      obtain ⟨s2, h1, h2, h3, h4⟩ := ih (gpioButtonFxn1 s).1 (by rw [f5]; exact h)
      refine ⟨s2, ?_, h2.trans f4, h3.trans f2, by rw [h4, f5]⟩
      simp [runEvents_cons, applyEvent, h1, f1]

theorem lt_total_of_readStep (m : MessageType) (i : Int) (st : MorseStep)
    (h : readStep (selectSteps m) i = some st) : 0 ≤ i ∧ i < selectTotal m := by
  unfold readStep at h
  split at h
  · rename_i h0
    obtain ⟨hlt, -⟩ := List.getElem?_eq_some.mp h
    rw [selectTotal_eq_length]
    exact ⟨h0, by omega⟩
  · cases h

/-! ## Ticks away from the boundary -/

theorem runStateMachine_total (s : State) (h0 : 0 ≤ s.currentStepIndex) :
    ∃ s1 w, runStateMachine s = some (s1, w) ∧ 0 ≤ s1.currentStepIndex ∧
      (¬ atBoundary s →
        s1.currentMessage = s.currentMessage ∧ s1.buttonPressed = s.buttonPressed) := by
  by_cases hr : 0 < s.remainingTicks
  · exact ⟨_, _, runStateMachine_hold s hr, h0, fun _ => ⟨rfl, rfl⟩⟩
  · have hr0 : s.remainingTicks ≤ 0 := not_lt.mp hr
    by_cases hi : s.currentStepIndex < selectTotal s.currentMessage
    · obtain ⟨st, hread⟩ := readStep_some_of_range (selectSteps s.currentMessage)
        s.currentStepIndex h0 (by rw [← selectTotal_eq_length]; exact hi)
      obtain ⟨s1, hrun, e1, e2, -, e4, -⟩ :=
        runStateMachine_commit_fields s st hr0 hi hread (duration_pos_of_readStep _ _ _ hread)
      exact ⟨s1, _, hrun, by omega, fun _ => ⟨e1, e2⟩⟩
    · have hi2 : selectTotal s.currentMessage ≤ s.currentStepIndex := not_lt.mp hi
      exact ⟨_, _, runStateMachine_boundary s hr0 hi2, le_refl _,
        fun hnb => absurd ⟨hr0, hi2⟩ hnb⟩

theorem runEvents_index_nonneg (es : List Event) (s s1 : State) (ws : List GpioWrite)
    (h0 : 0 ≤ s.currentStepIndex) (h : runEvents s es = some (s1, ws)) :
    0 ≤ s1.currentStepIndex := by
  induction es generalizing s ws with
  | nil =>
    simp only [runEvents, Option.some.injEq, Prod.mk.injEq] at h
    rw [← h.1]; exact h0
  | cons e es ih =>
    rw [runEvents_cons] at h
    cases hap : applyEvent s e with
    | none => rw [hap] at h; cases h
    | some p =>
      rw [hap] at h
      simp only [Option.some_bind] at h
      have hp : 0 ≤ p.1.currentStepIndex := by
        cases e with
        | tick =>
          obtain ⟨t, w, ht, ht0, -⟩ := runStateMachine_total s h0
          simp only [applyEvent, timerCallback, ht, Option.some.injEq] at hap
          rw [← hap]; exact ht0
        | button0 =>
          simp only [applyEvent, gpioButtonFxn0, Option.some.injEq] at hap
          rw [← hap]; exact h0
        | button1 =>
          simp only [applyEvent, Option.some.injEq] at hap
          rw [← hap, (gpioButtonFxn1_frame s).2.2.2.1]; exact h0
      cases hrest : runEvents p.1 es with
      | none => rw [hrest] at h; cases h
      | some q =>
        rw [hrest] at h
        simp only [Option.map_some', Option.some.injEq, Prod.mk.injEq] at h
        obtain ⟨q1, q2⟩ := q
        simp only at h
        have := ih p.1 q2 hp (by rw [hrest, h.1])
        exact this

theorem reachable_index_nonneg (s : State) (h : Reachable s) : 0 ≤ s.currentStepIndex := by
  obtain ⟨es, ws, hrun⟩ := h
  exact runEvents_index_nonneg es init s ws (le_refl _) hrun

/-- Over events none of whose ticks is a boundary tick, the run succeeds, the
message is kept and `buttonPressed` is set exactly when it was set before or
button 0 was pressed. -/
theorem noBoundary_runEvents (es : List Event) (s : State)
    (h0 : 0 ≤ s.currentStepIndex) (hnb : noBoundaryTick s es = true) :
    ∃ s1 ws, runEvents s es = some (s1, ws) ∧ 0 ≤ s1.currentStepIndex ∧
      s1.currentMessage = s.currentMessage ∧
      s1.buttonPressed = (s.buttonPressed || decide (Event.button0 ∈ es)) := by
  induction es generalizing s with
  | nil => exact ⟨s, [], rfl, h0, rfl, by simp⟩
  | cons e es ih =>
    simp only [noBoundaryTick, Bool.and_eq_true, Bool.or_eq_true, decide_eq_true_eq] at hnb
    obtain ⟨hb, hrest⟩ := hnb
    cases e with
    | tick =>
      have hnot : ¬ atBoundary s := by
        rcases hb with hb | hb
        · exact absurd rfl hb
        · exact hb
      obtain ⟨t, w, ht, ht0, hkeep⟩ := runStateMachine_total s h0
      obtain ⟨k1, k2⟩ := hkeep hnot
      simp only [applyEvent, timerCallback, ht] at hrest
      obtain ⟨s1, ws, h1, h2, h3, h4⟩ := ih t ht0 hrest
      refine ⟨s1, w ++ ws, ?_, h2, h3.trans k1, ?_⟩
      · simp [runEvents_cons, applyEvent, timerCallback, ht, h1]
      · rw [h4, k2]; simp
    | button0 =>
      simp only [applyEvent] at hrest
      obtain ⟨s1, ws, h1, h2, h3, h4⟩ := ih (gpioButtonFxn0 s).1 h0 hrest
      refine ⟨s1, ws, ?_, h2, h3, ?_⟩
      · have hw : (gpioButtonFxn0 s).2 = [] := rfl
        simp [runEvents_cons, applyEvent, h1, hw]
      · rw [h4]; simp [gpioButtonFxn0]
    | button1 =>
      simp only [applyEvent] at hrest
      obtain ⟨f1, f2, f3, f4, -⟩ := gpioButtonFxn1_frame s
      obtain ⟨s1, ws, h1, h2, h3, h4⟩ := ih (gpioButtonFxn1 s).1 (by rw [f4]; exact h0) hrest
      refine ⟨s1, ws, ?_, h2, h3.trans f2, ?_⟩
      · simp [runEvents_cons, applyEvent, h1, f1]
      · rw [h4, f3]; simp

theorem runEvents_replicate_button0 (s : State) (n : Nat) :
    runEvents s (List.replicate (n + 1) Event.button0) = some ((gpioButtonFxn0 s).1, []) := by
  induction n generalizing s with
  | zero => rfl
  | succ n ih =>
    rw [List.replicate_succ, runEvents_cons]
    simp only [applyEvent, Option.some_bind, ih]
    rfl

/-! ## The per-tick log and the period of the SOS loop -/

theorem tickLog_add (a b : Nat) (s : State) :
    tickLog (a + b) s =
      (tickLog a s).bind fun p => (tickLog b p.1).map fun q => (q.1, p.2 ++ q.2) := by
  induction a generalizing s with
  | zero =>
    simp only [Nat.zero_add, tickLog, Option.some_bind, List.nil_append]
    cases tickLog b s <;> simp
  | succ a ih =>
    rw [Nat.add_right_comm]
    simp only [tickLog]
    cases runStateMachine s with
    | none => rfl
    | some p =>
      simp only [Option.some_bind, ih]
      cases tickLog a p.1 with
      | none => rfl
      | some q =>
        simp only [Option.some_bind, Option.map_some']
        cases tickLog b q.1 with
        | none => rfl
        | some r => simp

/-- The flat list of writes of `runTicks` is the per-tick log of `tickLog`
with the ticks joined. -/
theorem runTicks_eq_tickLog (n : Nat) (s : State) :
    runTicks n s = (tickLog n s).map fun p => (p.1, p.2.flatten) := by
  induction n generalizing s with
  | zero => rfl
  | succ n ih =>
    have ih2 : ∀ t, runEvents t (List.replicate n Event.tick)
        = (tickLog n t).map fun p => (p.1, p.2.flatten) := ih
    unfold runTicks
    rw [List.replicate_succ, runEvents_cons]
    simp only [applyEvent, timerCallback, tickLog]
    cases runStateMachine s with
    | none => rfl
    | some p =>
      simp only [Option.some_bind, ih2]
      cases tickLog n p.1 with
      | none => rfl
      | some q => simp

set_option maxRecDepth 100000 in
theorem tickLog_sosPeriod : tickLog 31 init = some (init, sosPeriod) := by decide

set_option maxRecDepth 100000 in
theorem tickLog_lt_period :
    ∀ r, r < 31 → (tickLog r init).map Prod.snd = some (sosPeriod.take r) := by decide

theorem tickLog_periods (q : Nat) :
    tickLog (31 * q) init = some (init, (List.replicate q sosPeriod).flatten) := by
  induction q with
  | zero => rfl
  | succ q ih =>
    rw [Nat.mul_succ, tickLog_add, ih]
    simp only [Option.some_bind, tickLog_sosPeriod, Option.map_some', List.replicate_succ',
      List.flatten_append, List.flatten_cons, List.flatten_nil, List.append_nil]

theorem tickLog_init (n : Nat) :
    ∃ s, tickLog n init =
      some (s, (List.replicate (n / 31) sosPeriod).flatten ++ sosPeriod.take (n % 31)) := by
  have hn : n = 31 * (n / 31) + n % 31 := (Nat.div_add_mod n 31).symm
  have hr := tickLog_lt_period (n % 31) (Nat.mod_lt n (by decide))
  cases hlog : tickLog (n % 31) init with
  | none => rw [hlog] at hr; cases hr
  | some p =>
    rw [hlog] at hr
    simp only [Option.map_some', Option.some.injEq] at hr
    refine ⟨p.1, ?_⟩
    conv_lhs => rw [hn]
    rw [tickLog_add, tickLog_periods]
    simp only [Option.some_bind, hlog, Option.map_some', hr]

/-! ## Invariants of the reachable states -/

theorem runEvents_preserves (P : State → Prop)
    (hstep : ∀ s e s1 w, P s → applyEvent s e = some (s1, w) → P s1)
    (es : List Event) (s s1 : State) (ws : List GpioWrite)
    (h : P s) (hrun : runEvents s es = some (s1, ws)) : P s1 := by
  induction es generalizing s ws with
  | nil =>
    simp only [runEvents, Option.some.injEq, Prod.mk.injEq] at hrun
    rw [← hrun.1]; exact h
  | cons e es ih =>
    rw [runEvents_cons] at hrun
    cases hap : applyEvent s e with
    | none => rw [hap] at hrun; cases hrun
    | some p =>
      obtain ⟨p1, p2⟩ := p
      rw [hap] at hrun
      simp only [Option.some_bind] at hrun
      cases hrest : runEvents p1 es with
      | none => rw [hrest] at hrun; cases hrun
      | some q =>
        obtain ⟨q1, q2⟩ := q
        rw [hrest] at hrun
        simp only [Option.map_some', Option.some.injEq, Prod.mk.injEq] at hrun
        exact ih p1 q2 (hstep s e p1 p2 h hap) (by rw [hrest, hrun.1])

theorem selectTotal_nonneg (m : MessageType) : 0 ≤ selectTotal m := by
  cases m <;> decide

theorem gpioButtonFxn1_speed (s : State) :
    (gpioButtonFxn1 s).1.speedMultiplier = 1 ∨ (gpioButtonFxn1 s).1.speedMultiplier = 2 ∨
      (gpioButtonFxn1 s).1.speedMultiplier = 3 := by
  unfold gpioButtonFxn1
  split
  · exact Or.inr (Or.inl rfl)
  · split
    · exact Or.inr (Or.inr rfl)
    · exact Or.inl rfl

theorem cursorInv_runStateMachine (s s1 : State) (w : List GpioWrite) (h : CursorInv s)
    (hrun : runStateMachine s = some (s1, w)) : CursorInv s1 := by
  obtain ⟨h0, hlen, hrem, hsp⟩ := h
  by_cases hr : 0 < s.remainingTicks
  · rw [runStateMachine_hold s hr] at hrun
    simp only [Option.some.injEq, Prod.mk.injEq] at hrun
    rw [← hrun.1]
    exact ⟨h0, hlen, by show 0 ≤ s.remainingTicks - 1; omega, hsp⟩
  · have hr0 : s.remainingTicks ≤ 0 := not_lt.mp hr
    by_cases hi : s.currentStepIndex < selectTotal s.currentMessage
    · obtain ⟨st, hread⟩ := readStep_some_of_range (selectSteps s.currentMessage)
        s.currentStepIndex h0 (by rw [← selectTotal_eq_length]; exact hi)
      have hd := duration_pos_of_readStep _ _ _ hread
      obtain ⟨t, ht, e1, -, e3, e4, e5⟩ :=
        runStateMachine_commit_fields s st hr0 hi hread hd
      rw [ht] at hrun
      simp only [Option.some.injEq, Prod.mk.injEq] at hrun
      rw [← hrun.1]
      have hne : ¬ s.speedMultiplier = 0 := by omega
      simp only [hne, if_false] at e3 e5
      refine ⟨by omega, by rw [e1, e4]; omega, ?_, by rw [e3]; exact hsp⟩
      rw [e5]
      have hk : (1 : Int) ≤ (s.speedMultiplier : Int) := by
        have : 1 ≤ s.speedMultiplier := by omega
        exact_mod_cast this
      have := Int.mul_pos (show 0 < st.duration by omega) (show (0 : Int) < s.speedMultiplier by omega)
      omega
    · have hi2 : selectTotal s.currentMessage ≤ s.currentStepIndex := not_lt.mp hi
      rw [runStateMachine_boundary s hr0 hi2] at hrun
      simp only [Option.some.injEq, Prod.mk.injEq] at hrun
      rw [← hrun.1]
      exact ⟨le_refl _, selectTotal_nonneg _, hrem, hsp⟩

theorem cursorInv_applyEvent (s : State) (e : Event) (s1 : State) (w : List GpioWrite)
    (h : CursorInv s) (hap : applyEvent s e = some (s1, w)) : CursorInv s1 := by
  cases e with
  | tick => exact cursorInv_runStateMachine s s1 w h hap
  | button0 =>
    simp only [applyEvent, gpioButtonFxn0, Option.some.injEq, Prod.mk.injEq] at hap
    rw [← hap.1]; exact h
  | button1 =>
    simp only [applyEvent, Option.some.injEq] at hap
    obtain ⟨-, f2, -, f4, f5⟩ := gpioButtonFxn1_frame s
    have hs1 : s1 = (gpioButtonFxn1 s).1 := by rw [hap]
    obtain ⟨h0, hlen, hrem, -⟩ := h
    rw [hs1]
    exact ⟨by rw [f4]; exact h0, by rw [f4, f2]; exact hlen, by rw [f5]; exact hrem,
      gpioButtonFxn1_speed s⟩

theorem cursorInv_init : CursorInv init :=
  ⟨le_refl _, by decide, le_refl _, Or.inl rfl⟩

theorem cursorInv_of_reachable (s : State) (h : Reachable s) : CursorInv s := by
  obtain ⟨es, ws, hrun⟩ := h
  exact runEvents_preserves CursorInv cursorInv_applyEvent es init s ws cursorInv_init hrun

theorem duration_le_three_of_mem_SOS : ∀ st ∈ SOS_steps, st.duration ≤ 3 := by decide

theorem duration_le_three_of_mem_OK : ∀ st ∈ OK_steps, st.duration ≤ 3 := by decide

theorem duration_le_three_of_readStep (m : MessageType) (i : Int) (st : MorseStep)
    (h : readStep (selectSteps m) i = some st) : st.duration ≤ 3 := by
  unfold readStep at h
  split at h
  · have hm : st ∈ selectSteps m := List.getElem?_mem h
    cases m
    · exact duration_le_three_of_mem_SOS st hm
    · exact duration_le_three_of_mem_OK st hm
  · cases h

theorem writeOf_eq (st : MorseStep) : writeOf st = ⟨st.led, st.state⟩ := by
  unfold writeOf
  cases st.state <;> rfl

/-- A tick that is not a boundary tick, when it returns, keeps the message
and the pending-switch flag. -/
theorem runStateMachine_keeps_message (s s1 : State) (w : List GpioWrite)
    (hrun : runStateMachine s = some (s1, w)) (hnb : ¬ atBoundary s) :
    s1.currentMessage = s.currentMessage ∧ s1.buttonPressed = s.buttonPressed := by
  by_cases hr : 0 < s.remainingTicks
  · rw [runStateMachine_hold s hr] at hrun
    simp only [Option.some.injEq, Prod.mk.injEq] at hrun
    rw [← hrun.1]
    exact ⟨rfl, rfl⟩
  · have hr0 : s.remainingTicks ≤ 0 := not_lt.mp hr
    have hi : s.currentStepIndex < selectTotal s.currentMessage := by
      by_contra hcon
      exact hnb ⟨hr0, not_lt.mp hcon⟩
    cases hread : readStep (selectSteps s.currentMessage) s.currentStepIndex with
    | none =>
      simp [runStateMachine, hr0, hi, hread] at hrun
    | some st =>
      rw [runStateMachine_commit s st hr0 hi hread] at hrun
      simp only [Option.some.injEq, Prod.mk.injEq] at hrun
      rw [← hrun.1, consumeTick_currentMessage, consumeTick_buttonPressed]
      exact ⟨rfl, rfl⟩

theorem runStateMachineOn_tables (s : State) :
    runStateMachineOn SOS_steps OK_steps s = runStateMachine s := by
  cases hm : s.currentMessage <;>
    simp [runStateMachineOn, runStateMachine, selectSteps, selectTotal, hm]

/-! ## The LED levels -/

theorem applyWrites_append (lv : Levels) (a b : List GpioWrite) :
    applyWrites lv (a ++ b) = applyWrites (applyWrites lv a) b := by
  simp [applyWrites, List.foldl_append]

theorem levelsAfter_succ (b : Levels) (m : MessageType) (j : Nat) (st : MorseStep)
    (h : (selectSteps m)[j]? = some st) :
    levelsAfter b m (j + 1) = GPIO_write (levelsAfter b m j) (writeOf st) := by
  unfold levelsAfter
  rw [List.take_succ, h, List.map_append, applyWrites_append]
  rfl

theorem levelsAfter_full_SOS :
    levelsAfter ⟨false, false⟩ MESSAGE_SOS (selectSteps MESSAGE_SOS).length = ⟨false, false⟩ ∧
    levelsAfter ⟨true, false⟩ MESSAGE_SOS (selectSteps MESSAGE_SOS).length = ⟨false, false⟩ := by
  decide

theorem levelsAfter_full_OK :
    levelsAfter ⟨false, false⟩ MESSAGE_OK (selectSteps MESSAGE_OK).length = ⟨false, false⟩ := by
  decide

theorem levelsAfter_full (m : MessageType) :
    levelsAfter ⟨false, false⟩ m (selectSteps m).length = ⟨false, false⟩ := by
  cases m
  · exact levelsAfter_full_SOS.1
  · exact levelsAfter_full_OK

theorem levelsAfter_not_both_SOS :
    ∀ j, j < 19 →
      ¬ ((levelsAfter ⟨false, false⟩ MESSAGE_SOS j).led0 = true ∧
          (levelsAfter ⟨false, false⟩ MESSAGE_SOS j).led1 = true) ∧
      ¬ ((levelsAfter ⟨true, false⟩ MESSAGE_SOS j).led0 = true ∧
          (levelsAfter ⟨true, false⟩ MESSAGE_SOS j).led1 = true) := by
  decide

theorem levelsAfter_not_both_OK :
    ∀ j, j < 13 →
      ¬ ((levelsAfter ⟨false, false⟩ MESSAGE_OK j).led0 = true ∧
          (levelsAfter ⟨false, false⟩ MESSAGE_OK j).led1 = true) := by
  decide

theorem ledInv_not_both (s : State) (lv : Levels) (h : LedInv s lv) :
    ¬ (lv.led0 = true ∧ lv.led1 = true) := by
  obtain ⟨j, -, hj, hlv⟩ := h
  cases hm : s.currentMessage with
  | MESSAGE_SOS =>
    rw [hm] at hj hlv
    have hj19 : j < 19 := Nat.lt_succ_of_le hj
    rcases hlv with hlv | ⟨-, hlv⟩
    · rw [hlv]; exact (levelsAfter_not_both_SOS j hj19).1
    · rw [hlv]; exact (levelsAfter_not_both_SOS j hj19).2
  | MESSAGE_OK =>
    rw [hm] at hj hlv
    have hj13 : j < 13 := Nat.lt_succ_of_le hj
    rcases hlv with hlv | ⟨hc, -⟩
    · rw [hlv]; exact levelsAfter_not_both_OK j hj13
    · cases hc

theorem ledInv_runStateMachine (s : State) (lv : Levels) (h : LedInv s lv) :
    ∃ s1 w, runStateMachine s = some (s1, w) ∧ LedInv s1 (applyWrites lv w) := by
  obtain ⟨j, hidx, hj, hlv⟩ := h
  by_cases hr : 0 < s.remainingTicks
  · exact ⟨_, _, runStateMachine_hold s hr, j, hidx, hj, hlv⟩
  · have hr0 : s.remainingTicks ≤ 0 := not_lt.mp hr
    by_cases hi : s.currentStepIndex < selectTotal s.currentMessage
    · have hjlt : j < (selectSteps s.currentMessage).length := by
        rw [selectTotal_eq_length, hidx] at hi
        exact_mod_cast hi
      obtain ⟨st, hget⟩ : ∃ st, (selectSteps s.currentMessage)[j]? = some st :=
        ⟨_, List.getElem?_eq_getElem hjlt⟩
      have hread : readStep (selectSteps s.currentMessage) s.currentStepIndex = some st := by
        rw [hidx, readStep_natCast]; exact hget
      obtain ⟨s1, hrun, e1, -, -, e4, -⟩ :=
        runStateMachine_commit_fields s st hr0 hi hread (duration_pos_of_readStep _ _ _ hread)
      refine ⟨s1, _, hrun, j + 1, by rw [e4, hidx]; push_cast; rfl, by rw [e1]; exact hjlt, ?_⟩
      rw [e1]
      have happ : ∀ l : Levels, applyWrites l [writeOf st] = GPIO_write l (writeOf st) :=
        fun _ => rfl
      rcases hlv with hlv | ⟨hm, hlv⟩
      · left
        rw [happ, hlv, levelsAfter_succ _ _ _ _ hget]
      · right
        refine ⟨hm, ?_⟩
        rw [hm] at hget
        rw [happ, hlv, levelsAfter_succ _ _ _ _ hget]
    · have hi2 : selectTotal s.currentMessage ≤ s.currentStepIndex := not_lt.mp hi
      have hjeq : j = (selectSteps s.currentMessage).length := by
        have : ((selectSteps s.currentMessage).length : Int) ≤ (j : Int) := by
          rw [← selectTotal_eq_length, ← hidx]; exact hi2
        have : (selectSteps s.currentMessage).length ≤ j := by exact_mod_cast this
        omega
      have hoff : lv = ⟨false, false⟩ := by
        rcases hlv with hlv | ⟨hm, hlv⟩
        · rw [hlv, hjeq]; exact levelsAfter_full s.currentMessage
        · rw [hlv, hjeq, hm]; exact levelsAfter_full_SOS.2
      refine ⟨_, _, runStateMachine_boundary s hr0 hi2, 0, rfl, Nat.zero_le _, Or.inl ?_⟩
      rw [hoff]
      rfl

theorem ledInv_applyEvent (s : State) (e : Event) (lv : Levels) (h : LedInv s lv) :
    ∃ s1 w, applyEvent s e = some (s1, w) ∧ LedInv s1 (applyWrites lv w) := by
  cases e with
  | tick => exact ledInv_runStateMachine s lv h
  | button0 => exact ⟨_, _, rfl, h⟩
  | button1 =>
    obtain ⟨f1, f2, -, f4, -⟩ := gpioButtonFxn1_frame s
    obtain ⟨j, hidx, hj, hlv⟩ := h
    refine ⟨(gpioButtonFxn1 s).1, (gpioButtonFxn1 s).2, rfl, j, by rw [f4]; exact hidx,
      by rw [f2]; exact hj, ?_⟩
    rw [f1, f2]
    exact hlv

theorem ledInv_runEvents (es : List Event) (s : State) (lv : Levels) (h : LedInv s lv) :
    ∃ s1 ws, runEvents s es = some (s1, ws) ∧ LedInv s1 (applyWrites lv ws) := by
  induction es generalizing s lv with
  | nil => exact ⟨s, [], rfl, h⟩
  | cons e es ih =>
    obtain ⟨s1, w, hap, hinv⟩ := ledInv_applyEvent s e lv h
    obtain ⟨s2, ws, hrun, hinv2⟩ := ih s1 (applyWrites lv w) hinv
    refine ⟨s2, w ++ ws, ?_, ?_⟩
    · simp [runEvents_cons, hap, hrun]
    · rw [applyWrites_append]; exact hinv2

theorem ledInv_init : LedInv init startupLevels :=
  ⟨0, rfl, Nat.zero_le _, Or.inr ⟨rfl, rfl⟩⟩

/-! ## The exact writes of an undisturbed SOS playback -/

theorem sosPeriod_flatten : sosPeriod.flatten = sosWrites := by decide

set_option maxRecDepth 100000 in
theorem sosPeriod_take_flatten :
    ∀ r, r < 31 →
      (sosPeriod.take r).flatten = sosWrites.take (commitsWithin SOS_steps r) := by
  decide

theorem replicate_sosPeriod_flatten (q : Nat) :
    (List.replicate q sosPeriod).flatten.flatten = (List.replicate q sosWrites).flatten := by
  induction q with
  | zero => rfl
  | succ q ih =>
    rw [List.replicate_succ, List.flatten_cons, List.flatten_append, ih, sosPeriod_flatten,
      List.replicate_succ, List.flatten_cons]

theorem runTicks_init_writes (n : Nat) :
    ∃ s, runTicks n init =
      some (s, (List.replicate (n / 31) sosWrites).flatten
                ++ sosWrites.take (commitsWithin SOS_steps (n % 31))) := by
  obtain ⟨s, hlog⟩ := tickLog_init n
  refine ⟨s, ?_⟩
  rw [runTicks_eq_tickLog, hlog]
  simp only [Option.map_some', List.flatten_append, replicate_sosPeriod_flatten,
    sosPeriod_take_flatten (n % 31) (Nat.mod_lt n (by decide))]

/-! ## The claims -/

set_option maxRecDepth 100000 in
/-- C1: for every tick count `n`, `n` calls of `runStateMachine` from the
initial state with no button event succeed and the `GPIO_write` calls made
are exactly these: `n / 31` full passes of the SOS table's writes in table
order, followed by the first `c` writes of the table, `c` being the number of
steps whose commit tick (one plus the durations of the steps before it) falls
within the remaining `n % 31` ticks; a pass takes 30 ticks of holds and one
boundary tick.  So the writes are a non-empty (for `n >= 1`), growing prefix of
the SOS table's writes repeated over and over, each step held for its
`duration` ticks, and 31 ticks write the whole table once.  After the `n`
ticks `currentMessage` is SOS and `buttonPressed` is false (for every `n`,
hence after each of the ticks). -/
theorem sos_playback_prefix_of_repetition (n : Nat) :
    ∃ s ws, runTicks n init = some (s, ws) ∧
      ws = (List.replicate (n / 31) (SOS_steps.map writeOf)).flatten
            ++ (SOS_steps.map writeOf).take (commitsWithin SOS_steps (n % 31)) ∧
      ws.length = 18 * (n / 31) + commitsWithin SOS_steps (n % 31) ∧
      (1 ≤ n → ws ≠ []) ∧
      ws <+: (List.replicate n (SOS_steps.map writeOf)).flatten ∧
      (List.range 32).map (commitsWithin SOS_steps)
        = [0, 1, 2, 3, 4, 5, 6, 6, 6, 7, 7, 7, 8, 9, 9, 9, 10, 11, 11, 11,
           12, 12, 12, 13, 14, 15, 16, 17, 18, 18, 18, 18] ∧
      s.currentMessage = MESSAGE_SOS ∧ s.buttonPressed = false := by
  obtain ⟨s, ws, hrun, hinv⟩ := sosLoopInv_runTicks n
  obtain ⟨s', hexact⟩ := runTicks_init_writes n
  have hws : ws = (List.replicate (n / 31) sosWrites).flatten
      ++ sosWrites.take (commitsWithin SOS_steps (n % 31)) := by
    rw [hrun] at hexact
    simp only [Option.some.injEq, Prod.mk.injEq] at hexact
    exact hexact.2
  have hc : ∀ r, r < 31 → commitsWithin SOS_steps r ≤ 18 ∧
      (1 ≤ r → 1 ≤ commitsWithin SOS_steps r) := by decide
  obtain ⟨hc18, hc1⟩ := hc (n % 31) (Nat.mod_lt n (by decide))
  have hlen : ws.length = 18 * (n / 31) + commitsWithin SOS_steps (n % 31) := by
    have h18 : sosWrites.length = 18 := rfl
    rw [hws, List.length_append, List.length_flatten, List.map_replicate, List.sum_replicate,
      List.length_take, h18]
    simp only [smul_eq_mul]
    rw [Nat.min_eq_left hc18, Nat.mul_comm]
  refine ⟨s, ws, hrun, hws, hlen, ?_, sosLoopInv_writes n s ws hinv, by decide,
    hinv.1, hinv.2.1⟩
  intro hn hnil
  rw [hnil] at hlen
  simp only [List.length_nil] at hlen
  have hdm := Nat.div_add_mod n 31
  by_cases hr : 1 ≤ n % 31
  · have := hc1 hr
    omega
  · omega

/-- C2: boundary tick.  From every state with `remainingTicks <= 0` and
`currentStepIndex >= totalSteps` of the active table, one call of
`runStateMachine` succeeds, makes no `GPIO_write`, sets `currentStepIndex` to 0
and leaves `remainingTicks` and `speedMultiplier` unchanged; with
`buttonPressed` set it clears it and flips `currentMessage` (SOS to OK, OK to
SOS), otherwise `currentMessage` and `buttonPressed` stay as they are. -/
theorem boundary_tick_resets_and_switches (s : State)
    (hr : s.remainingTicks ≤ 0)
    (hi : selectTotal s.currentMessage ≤ s.currentStepIndex) :
    ∃ s1, runStateMachine s = some (s1, []) ∧
      s1.currentStepIndex = 0 ∧
      s1.remainingTicks = s.remainingTicks ∧
      s1.speedMultiplier = s.speedMultiplier ∧
      (s.buttonPressed = true →
        s1.buttonPressed = false ∧
        (s.currentMessage = MESSAGE_SOS → s1.currentMessage = MESSAGE_OK) ∧
        (s.currentMessage = MESSAGE_OK → s1.currentMessage = MESSAGE_SOS)) ∧
      (s.buttonPressed = false →
        s1.buttonPressed = false ∧ s1.currentMessage = s.currentMessage) := by
  refine ⟨_, runStateMachine_boundary s hr hi, rfl, rfl, rfl, ?_, ?_⟩
  · intro hb
    refine ⟨rfl, ?_, ?_⟩ <;> intro hm <;> simp [hb, hm, flipMessage]
  · intro hb
    exact ⟨rfl, by simp [hb]⟩

/-- Witness of C2 at the end of SOS with a switch pending. -/
theorem boundary_tick_resets_and_switches_witness :
    sosEndPending.remainingTicks ≤ 0 ∧
    selectTotal sosEndPending.currentMessage ≤ sosEndPending.currentStepIndex ∧
    ∃ s1, runStateMachine sosEndPending = some (s1, []) ∧
      s1.currentStepIndex = 0 ∧
      s1.remainingTicks = sosEndPending.remainingTicks ∧
      s1.speedMultiplier = sosEndPending.speedMultiplier ∧
      (sosEndPending.buttonPressed = true →
        s1.buttonPressed = false ∧
        (sosEndPending.currentMessage = MESSAGE_SOS → s1.currentMessage = MESSAGE_OK) ∧
        (sosEndPending.currentMessage = MESSAGE_OK → s1.currentMessage = MESSAGE_SOS)) ∧
      (sosEndPending.buttonPressed = false →
        s1.buttonPressed = false ∧ s1.currentMessage = sosEndPending.currentMessage) :=
  ⟨by decide, by decide,
    boundary_tick_resets_and_switches sosEndPending (by decide) (by decide)⟩

/-- C4: speed scaling.  When a tick commits a step of duration `d` with
`speedMultiplier = k >= 1`, then over any sequence of events (timer ticks with
any number of button 1 interrupts between them, button 0 interrupts as well)
that holds at most `d*k - 1` ticks, no `GPIO_write` is made, `currentStepIndex`
stays put and `remainingTicks` is `d*k - 1` minus the ticks elapsed: it is
positive at the entry of each of the `d*k - 1` ticks after the commit and 0 at
the entry of the `d*k`-th, which is the next commit or boundary tick.  With the
speed at 3 from the start, SOS step 0 is written on tick 1, nothing is written
on ticks 2 and 3, and step 1 is written on tick 4. -/
theorem speed_scaling_hold (s : State) (st : MorseStep) (k : Nat)
    (hk : 1 ≤ k) (hs : s.speedMultiplier = k) (hr : s.remainingTicks ≤ 0)
    (hread : readStep (selectSteps s.currentMessage) s.currentStepIndex = some st) :
    (∃ s1, runStateMachine s = some (s1, [writeOf st]) ∧
      s1.currentStepIndex = s.currentStepIndex + 1 ∧
      s1.remainingTicks = st.duration * k - 1 ∧
      1 ≤ st.duration * k ∧
      ∀ es : List Event, (countTicks es : Int) ≤ st.duration * k - 1 →
        ∃ s2, runEvents s1 es = some (s2, []) ∧
          s2.currentStepIndex = s1.currentStepIndex ∧
          s2.remainingTicks = st.duration * k - 1 - countTicks es) ∧
    (runTicks 1 initSpeed3).map Prod.snd = some [writeOf ⟨CONFIG_GPIO_LED_0, true, 1⟩] ∧
    (runTicks 2 initSpeed3).map Prod.snd = some [writeOf ⟨CONFIG_GPIO_LED_0, true, 1⟩] ∧
    (runTicks 3 initSpeed3).map Prod.snd = some [writeOf ⟨CONFIG_GPIO_LED_0, true, 1⟩] ∧
    (runTicks 4 initSpeed3).map Prod.snd =
      some [writeOf ⟨CONFIG_GPIO_LED_0, true, 1⟩, writeOf ⟨CONFIG_GPIO_LED_0, false, 1⟩] ∧
    SOS_steps.take 2 = [⟨CONFIG_GPIO_LED_0, true, 1⟩, ⟨CONFIG_GPIO_LED_0, false, 1⟩] := by
  refine ⟨?_, by decide, by decide, by decide, by decide, by decide⟩
  have hd := duration_pos_of_readStep _ _ _ hread
  obtain ⟨-, hi⟩ := lt_total_of_readStep _ _ _ hread
  obtain ⟨s1, hrun, -, -, -, e4, e5⟩ := runStateMachine_commit_fields s st hr hi hread hd
  have hk0 : ¬ k = 0 := by omega
  rw [hs] at e5
  simp only [hk0, if_false] at e5
  have hkpos : (1 : Int) ≤ (k : Int) := by exact_mod_cast hk
  have hprod : 1 ≤ st.duration * k := by
    have := Int.mul_pos (show 0 < st.duration by omega) (show (0 : Int) < k by omega)
    omega
  refine ⟨s1, hrun, e4, e5, hprod, ?_⟩
  intro es hes
  obtain ⟨s2, h1, h2, -, h4⟩ := hold_runEvents es s1 (by rw [e5]; exact hes)
  exact ⟨s2, h1, h2, by rw [h4, e5]⟩

/-- Witness of C4: the long gap of SOS (step 5, duration 3) committed at
speed 2. -/
theorem speed_scaling_hold_witness :
    ∃ s1, runStateMachine { sosGapSpeedZero with speedMultiplier := 2 }
        = some (s1, [writeOf ⟨CONFIG_GPIO_LED_0, false, 3⟩]) ∧
      s1.remainingTicks = 5 :=
  (speed_scaling_hold { sosGapSpeedZero with speedMultiplier := 2 }
      ⟨CONFIG_GPIO_LED_0, false, 3⟩ 2 (by decide) rfl (by decide) (by decide)).1.elim
    fun s1 h => ⟨s1, h.1, h.2.2.1⟩

/-- C8: cycle law.  `gpioButtonFxn1` takes `speedMultiplier` 1 to 2, 2 to 3
and 3 to 1, and from a state with `speedMultiplier` in `{1,2,3}` three calls
give back the state they started from. -/
theorem cycleSpeed_three_times (s : State)
    (h : s.speedMultiplier = 1 ∨ s.speedMultiplier = 2 ∨ s.speedMultiplier = 3) :
    (s.speedMultiplier = 1 → (gpioButtonFxn1 s).1.speedMultiplier = 2) ∧
    (s.speedMultiplier = 2 → (gpioButtonFxn1 s).1.speedMultiplier = 3) ∧
    (s.speedMultiplier = 3 → (gpioButtonFxn1 s).1.speedMultiplier = 1) ∧
    (gpioButtonFxn1 (gpioButtonFxn1 (gpioButtonFxn1 s).1).1).1 = s := by
  obtain ⟨m, b, sp, i, r⟩ := s
  simp only at h
  rcases h with h | h | h <;> subst h <;> simp [gpioButtonFxn1]

/-- Witness of C8 at the initial state (speed 1). -/
theorem cycleSpeed_three_times_witness :
    (init.speedMultiplier = 1 ∨ init.speedMultiplier = 2 ∨ init.speedMultiplier = 3) ∧
    (gpioButtonFxn1 (gpioButtonFxn1 (gpioButtonFxn1 init).1).1).1 = init :=
  ⟨Or.inl rfl, (cycleSpeed_three_times init (Or.inl rfl)).2.2.2⟩

/-- C9: guard law.  From every state with `speedMultiplier = 0` on a commit
tick (`remainingTicks <= 0` and `currentStepIndex` an index of the active
table), the tick writes the step and loads its duration with multiplier 1:
afterwards `remainingTicks = duration * 1 - 1` with `duration >= 1`,
`speedMultiplier = 1`, and the step is then held over `duration - 1` further
ticks with no write, after which `remainingTicks` is 0. -/
theorem zero_speed_guard (s : State) (h0 : s.speedMultiplier = 0)
    (hr : s.remainingTicks ≤ 0) (hlo : 0 ≤ s.currentStepIndex)
    (hi : s.currentStepIndex < selectTotal s.currentMessage) :
    ∃ st s1, readStep (selectSteps s.currentMessage) s.currentStepIndex = some st ∧
      runStateMachine s = some (s1, [writeOf st]) ∧
      s1.remainingTicks = st.duration * 1 - 1 ∧
      1 ≤ st.duration ∧
      s1.speedMultiplier = 1 ∧
      ∃ s2, runTicks (st.duration - 1).toNat s1 = some (s2, []) ∧
        s2.remainingTicks = 0 ∧ s2.currentStepIndex = s.currentStepIndex + 1 := by
  obtain ⟨st, hread⟩ := readStep_some_of_range (selectSteps s.currentMessage)
    s.currentStepIndex hlo (by rw [← selectTotal_eq_length]; exact hi)
  have hd := duration_pos_of_readStep _ _ _ hread
  obtain ⟨s1, hrun, -, -, e3, e4, e5⟩ := runStateMachine_commit_fields s st hr hi hread hd
  simp only [h0, if_true] at e3 e5
  have hcount : countTicks (List.replicate (st.duration - 1).toNat Event.tick)
      = (st.duration - 1).toNat := by
    simp [countTicks]
  have e5' : s1.remainingTicks = st.duration * 1 - 1 := by rw [e5]; simp
  obtain ⟨s2, h1, h2, -, h4⟩ :=
    hold_runEvents (List.replicate (st.duration - 1).toNat Event.tick) s1
      (by rw [hcount, e5']; omega)
  refine ⟨st, s1, hread, hrun, e5', hd, e3, s2, h1, ?_, by rw [h2, e4]⟩
  rw [h4, hcount, e5']; omega

/-- Witness of C9: the long gap of SOS committed with the speed forced to 0. -/
theorem zero_speed_guard_witness :
    sosGapSpeedZero.speedMultiplier = 0 ∧ sosGapSpeedZero.remainingTicks ≤ 0 ∧
    0 ≤ sosGapSpeedZero.currentStepIndex ∧
    sosGapSpeedZero.currentStepIndex < selectTotal sosGapSpeedZero.currentMessage ∧
    ∃ st s1, readStep (selectSteps sosGapSpeedZero.currentMessage)
        sosGapSpeedZero.currentStepIndex = some st ∧
      runStateMachine sosGapSpeedZero = some (s1, [writeOf st]) ∧
      s1.remainingTicks = st.duration * 1 - 1 ∧
      1 ≤ st.duration ∧
      s1.speedMultiplier = 1 ∧
      ∃ s2, runTicks (st.duration - 1).toNat s1 = some (s2, []) ∧
        s2.remainingTicks = 0 ∧
        s2.currentStepIndex = sosGapSpeedZero.currentStepIndex + 1 :=
  ⟨rfl, by decide, by decide, by decide,
    zero_speed_guard sosGapSpeedZero rfl (by decide) (by decide) (by decide)⟩

/-- C10: frame of the message-switch handler.  For every state,
`gpioButtonFxn0` sets `buttonPressed` to true, leaves `currentMessage`,
`currentStepIndex`, `remainingTicks` and `speedMultiplier` unchanged and makes
no `GPIO_write` call. -/
theorem gpioButtonFxn0_frame (s : State) :
    (gpioButtonFxn0 s).1.buttonPressed = true ∧
    (gpioButtonFxn0 s).1.currentMessage = s.currentMessage ∧
    (gpioButtonFxn0 s).1.currentStepIndex = s.currentStepIndex ∧
    (gpioButtonFxn0 s).1.remainingTicks = s.remainingTicks ∧
    (gpioButtonFxn0 s).1.speedMultiplier = s.speedMultiplier ∧
    (gpioButtonFxn0 s).2 = [] :=
  ⟨rfl, rfl, rfl, rfl, rfl, rfl⟩

set_option maxRecDepth 100000 in
/-- C3: for every `k <= 30`, pressing button 0 once after `k` ticks from the
initial state (speed 1) leaves, after tick 30, the last SOS step completed
(`currentStepIndex = 18`, `remainingTicks = 0`, switch still pending), and
after the boundary tick 31 gives `currentMessage = OK`, `currentStepIndex = 0`
and `buttonPressed = false`; after every earlier tick, before and after the
press, `currentMessage` is SOS.  The press during SOS step 5 is `k = 6, 7`. -/
theorem switch_request_served_at_boundary (k : Nat) (hk : k ≤ 30) :
    (runEvents init
        (List.replicate k Event.tick ++ Event.button0 :: List.replicate (30 - k) Event.tick)).map
        (fun p => (p.1.currentMessage, p.1.currentStepIndex, p.1.remainingTicks,
          p.1.buttonPressed))
      = some (MESSAGE_SOS, 18, 0, true) ∧
    (runEvents init
        (List.replicate k Event.tick ++ Event.button0 :: List.replicate (31 - k) Event.tick)).map
        (fun p => (p.1.currentMessage, p.1.currentStepIndex, p.1.buttonPressed))
      = some (MESSAGE_OK, 0, false) ∧
    (∀ j, j ≤ k → (runTicks j init).map (fun p => p.1.currentMessage) = some MESSAGE_SOS) ∧
    (∀ j, j ≤ 30 - k →
      (runEvents init
          (List.replicate k Event.tick ++ Event.button0 :: List.replicate j Event.tick)).map
        (fun p => p.1.currentMessage) = some MESSAGE_SOS) := by
  interval_cases k <;> decide

/-- Witness of C3: the press arrives after tick 7, while SOS step 5 (the long
gap, committed on tick 6) is held. -/
theorem switch_request_served_at_boundary_witness :
    7 ≤ 30 ∧
    (runEvents init
        (List.replicate 7 Event.tick ++ Event.button0 :: List.replicate (31 - 7) Event.tick)).map
        (fun p => (p.1.currentMessage, p.1.currentStepIndex, p.1.buttonPressed))
      = some (MESSAGE_OK, 0, false) :=
  ⟨by decide, (switch_request_served_at_boundary 7 (by decide)).2.1⟩

/-- C5: idempotence of the switch request.  `N >= 1` calls of
`gpioButtonFxn0` in a row give the same state as one call.  From every
reachable state, over any events up to (not including) the next boundary tick
that contain at least one button 0 press, the message is not changed and the
request stays pending; the boundary tick then flips `currentMessage` once and
clears `buttonPressed`; and with no further press the message is kept up to
and through the boundary tick after that. -/
theorem switch_request_idempotent (s : State) (hreach : Reachable s)
    (es : List Event) (hnb : noBoundaryTick s es = true) (hreq : Event.button0 ∈ es) :
    (∀ (t : State) (N : Nat), 1 ≤ N →
      runEvents t (List.replicate N Event.button0) = runEvents t [Event.button0]) ∧
    ∃ s1 ws, runEvents s es = some (s1, ws) ∧
      s1.currentMessage = s.currentMessage ∧ s1.buttonPressed = true ∧
      (atBoundary s1 →
        ∃ s2, runStateMachine s1 = some (s2, []) ∧
          s2.currentMessage = flipMessage s.currentMessage ∧
          s2.currentMessage ≠ s.currentMessage ∧
          s2.buttonPressed = false ∧
          ∀ es2 : List Event, noBoundaryTick s2 es2 = true → Event.button0 ∉ es2 →
            ∃ s3 ws3, runEvents s2 es2 = some (s3, ws3) ∧
              s3.currentMessage = s2.currentMessage ∧ s3.buttonPressed = false ∧
              (atBoundary s3 →
                ∃ s4, runStateMachine s3 = some (s4, []) ∧
                  s4.currentMessage = s2.currentMessage ∧ s4.buttonPressed = false)) := by
  constructor
  · intro t N hN
    obtain ⟨n, rfl⟩ : ∃ n, N = n + 1 := ⟨N - 1, by omega⟩
    rw [runEvents_replicate_button0]
    rfl
  · obtain ⟨s1, ws, h1, h2, h3, h4⟩ :=
      noBoundary_runEvents es s (reachable_index_nonneg s hreach) hnb
    have hb1 : s1.buttonPressed = true := by rw [h4]; simp [hreq]
    refine ⟨s1, ws, h1, h3, hb1, ?_⟩
    intro hbd
    have hm2 : (if s1.buttonPressed then flipMessage s1.currentMessage else s1.currentMessage)
        = flipMessage s.currentMessage := by simp [hb1, h3]
    refine ⟨_, runStateMachine_boundary s1 hbd.1 hbd.2, hm2, ?_, rfl, ?_⟩
    · show (if s1.buttonPressed then flipMessage s1.currentMessage else s1.currentMessage)
        ≠ s.currentMessage
      rw [hm2]
      cases s.currentMessage <;> decide
    · intro es2 hnb2 hreq2
      obtain ⟨s3, ws3, g1, -, g3, g4⟩ := noBoundary_runEvents es2 _ (le_refl _) hnb2
      have hb3 : s3.buttonPressed = false := by rw [g4]; simp [hreq2]
      refine ⟨s3, ws3, g1, g3, hb3, ?_⟩
      intro hbd3
      refine ⟨_, runStateMachine_boundary s3 hbd3.1 hbd3.2, ?_, rfl⟩
      show (if s3.buttonPressed then flipMessage s3.currentMessage else s3.currentMessage) = _
      rw [hb3]
      simpa using g3

set_option maxRecDepth 100000 in
/-- Witness of C5: from the initial state, five ticks, two presses of
button 0 and the 25 ticks that finish the SOS pass end in a boundary state. -/
theorem switch_request_idempotent_witness :
    noBoundaryTick init twoRequestsRun = true ∧ Event.button0 ∈ twoRequestsRun ∧
    runEvents init twoRequestsRun = some (sosEndPending, sosWrites) ∧
    atBoundary sosEndPending ∧
    ∃ s1 ws, runEvents init twoRequestsRun = some (s1, ws) ∧
      s1.currentMessage = init.currentMessage ∧ s1.buttonPressed = true :=
  ⟨by decide, by decide, by decide, by decide,
    (switch_request_idempotent init ⟨[], [], rfl⟩ twoRequestsRun (by decide) (by decide)).2.elim
      fun s1 h => h.elim fun ws hw => ⟨s1, ws, hw.1, hw.2.1, hw.2.2.1⟩⟩

set_option maxRecDepth 100000 in
/-- C6, counterexample: in the first 18 ticks from the initial state only the
first 11 SOS steps are written (on ticks 1-6, 9, 12, 13, 16, 17), and the 19th
call of `runStateMachine` is a hold tick of step 10: it makes no write and
leaves `currentStepIndex = 11`.  So it is not the case that ticks 1 to 18 each
write one step and tick 19 writes `SOS_steps[0]` and leaves the index at 1. -/
theorem scenario1_tick19_is_not_recommit :
    (tickLog 18 init).map (fun p => writeTicks p.2)
      = some [1, 2, 3, 4, 5, 6, 9, 12, 13, 16, 17] ∧
    (tickLog 18 init).map (fun p => p.2.flatten) = some (sosWrites.take 11) ∧
    (tickLog 19 init).map (fun p => (p.2.getLast?, p.1.currentStepIndex))
      = some (some [], 11) ∧
    ¬ ((tickLog 18 init).map Prod.snd = some (SOS_steps.map fun st => [writeOf st]) ∧
       (tickLog 19 init).map (fun p => (p.2.getLast?, p.1.currentStepIndex))
         = some (some (sosWrites.take 1), 1)) := by
  decide

set_option maxRecDepth 100000 in
/-- C6, amended: from the initial state with SOS active, speed 1 and no
button event, the 18 SOS steps are written in table order on ticks
1, 2, 3, 4, 5, 6, 9, 12, 13, 16, 17, 20, 23, 24, 25, 26, 27, 28: each step's
write is followed by `duration - 1` ticks with no write, the durations being
`[1,1,1,1,1,3, 3,1,3,1,3,3, 1,1,1,1,1,3]`, so the pass takes 30 ticks; tick 31
is the boundary tick (no write, index reset to 0) and tick 32 re-commits SOS
step 0, writing `SOS_steps[0]` and leaving `currentStepIndex = 1`. -/
theorem scenario1_thirty_two_ticks :
    SOS_steps.map (fun st => st.duration)
      = [1, 1, 1, 1, 1, 3, 3, 1, 3, 1, 3, 3, 1, 1, 1, 1, 1, 3] ∧
    tickLog 30 init
      = some ({ init with currentStepIndex := 18 }, holdPattern SOS_steps) ∧
    (holdPattern SOS_steps).flatten = SOS_steps.map writeOf ∧
    writeTicks (holdPattern SOS_steps)
      = [1, 2, 3, 4, 5, 6, 9, 12, 13, 16, 17, 20, 23, 24, 25, 26, 27, 28] ∧
    tickLog 31 init = some (init, holdPattern SOS_steps ++ [[]]) ∧
    tickLog 32 init
      = some ({ init with currentStepIndex := 1 },
          holdPattern SOS_steps ++ [[]] ++ [[writeOf ⟨CONFIG_GPIO_LED_0, true, 1⟩]]) ∧
    SOS_steps.head? = some ⟨CONFIG_GPIO_LED_0, true, 1⟩ := by
  decide

set_option maxRecDepth 100000 in
/-- C7, counterexample: over the first 32 ticks from the initial state the
last step of the pass (duration 3) is written on tick 28 and step 0 of the
next pass on tick 32, 4 ticks later, not 3; tick 31 starts with
`remainingTicks = 0`, so it is in no held duration, and it makes no write. -/
theorem hold_time_fails_across_loop :
    (tickLog 32 init).map (fun p => gaps (writeTicks p.2))
      = some [1, 1, 1, 1, 1, 3, 3, 1, 3, 1, 3, 3, 1, 1, 1, 1, 1, 4] ∧
    SOS_steps.map (fun st => st.duration)
      = [1, 1, 1, 1, 1, 3, 3, 1, 3, 1, 3, 3, 1, 1, 1, 1, 1, 3] ∧
    ¬ ((tickLog 32 init).map (fun p => gaps (writeTicks p.2))
        = some (SOS_steps.map fun st => st.duration)) ∧
    (tickLog 30 init).map (fun p => (p.1.remainingTicks, p.1.currentStepIndex))
      = some (0, 18) ∧
    (tickLog 31 init).map (fun p => p.2.getLast?) = some (some []) := by
  decide

set_option maxRecDepth 100000 in
/-- C7, amended: from the initial state at speed 1 with no button event, the
per-tick write log of any `n` ticks is `n / 31` copies of the 31-tick period
followed by its first `n % 31` entries, the period being, for each SOS step in
table order, one tick with the step's write and `duration - 1` ticks with no
write, and then one boundary tick with no write.  So between consecutive
writes of one pass there are exactly `duration` ticks of the earlier step, and
between the last step of a pass and step 0 of the next there are
`duration + 1 = 4`: the boundary tick commits nothing and lies in no held
duration. -/
theorem hold_time_with_boundary_tick (n : Nat) :
    (∃ s, tickLog n init =
      some (s, (List.replicate (n / 31) (holdPattern SOS_steps ++ [[]])).flatten
                ++ (holdPattern SOS_steps ++ [[]]).take (n % 31))) ∧
    gaps (writeTicks (holdPattern SOS_steps))
      = (SOS_steps.map fun st => st.duration).dropLast ∧
    gaps (writeTicks (holdPattern SOS_steps ++ [[]] ++ holdPattern SOS_steps))
      = (SOS_steps.map fun st => st.duration).dropLast ++ [3 + 1]
          ++ (SOS_steps.map fun st => st.duration).dropLast ∧
    (SOS_steps.map fun st => st.duration).getLast? = some 3 :=
  ⟨tickLog_init n, by decide, by decide, by decide⟩

/-- C11: frame of the speed handler.  For every state, `gpioButtonFxn1`
leaves `remainingTicks`, `currentStepIndex`, `currentMessage` and
`buttonPressed` unchanged and makes no `GPIO_write` call.  So a step in flight
is not rescaled (the next tick still counts `remainingTicks` down by one from
its old value), and the new multiplier is what the next commit multiplies the
step's duration by. -/
theorem gpioButtonFxn1_changes_only_speed (s : State) :
    (gpioButtonFxn1 s).1.remainingTicks = s.remainingTicks ∧
    (gpioButtonFxn1 s).1.currentStepIndex = s.currentStepIndex ∧
    (gpioButtonFxn1 s).1.currentMessage = s.currentMessage ∧
    (gpioButtonFxn1 s).1.buttonPressed = s.buttonPressed ∧
    (gpioButtonFxn1 s).2 = [] ∧
    (0 < s.remainingTicks →
      ∃ s1, runStateMachine (gpioButtonFxn1 s).1 = some (s1, []) ∧
        s1.remainingTicks = s.remainingTicks - 1 ∧
        s1.currentStepIndex = s.currentStepIndex) ∧
    (∀ st, s.remainingTicks ≤ 0 →
      readStep (selectSteps s.currentMessage) s.currentStepIndex = some st →
      ∃ s1, runStateMachine (gpioButtonFxn1 s).1 = some (s1, [writeOf st]) ∧
        s1.remainingTicks = st.duration * ((gpioButtonFxn1 s).1.speedMultiplier : Int) - 1) := by
  obtain ⟨f1, f2, f3, f4, f5⟩ := gpioButtonFxn1_frame s
  refine ⟨f5, f4, f2, f3, f1, ?_, ?_⟩
  · intro hpos
    have hpos1 : 0 < (gpioButtonFxn1 s).1.remainingTicks := by rw [f5]; exact hpos
    refine ⟨_, runStateMachine_hold _ hpos1, ?_, f4⟩
    show (gpioButtonFxn1 s).1.remainingTicks - 1 = _
    rw [f5]
  · intro st hr hread
    have hread1 : readStep (selectSteps (gpioButtonFxn1 s).1.currentMessage)
        (gpioButtonFxn1 s).1.currentStepIndex = some st := by rw [f2, f4]; exact hread
    obtain ⟨-, hi⟩ := lt_total_of_readStep _ _ _ hread1
    obtain ⟨s1, hrun, -, -, -, -, e5⟩ :=
      runStateMachine_commit_fields (gpioButtonFxn1 s).1 st (by rw [f5]; exact hr) hi hread1
        (duration_pos_of_readStep _ _ _ hread1)
    have hne : ¬ (gpioButtonFxn1 s).1.speedMultiplier = 0 := by
      have := gpioButtonFxn1_speed s
      omega
    simp only [hne, if_false] at e5
    exact ⟨s1, hrun, e5⟩

set_option maxRecDepth 100000 in
/-- C12: cursor invariant.  In every state reached from the initial state by
a finite sequence of `runStateMachine`, `gpioButtonFxn0` and `gpioButtonFxn1`
calls, `0 <= currentStepIndex <= totalSteps` of the active table (18 for SOS,
12 for OK) and `remainingTicks >= 0`. -/
theorem cursor_invariant (s : State) (h : Reachable s) :
    0 ≤ s.currentStepIndex ∧
    s.currentStepIndex ≤ ((selectSteps s.currentMessage).length : Int) ∧
    (s.currentMessage = MESSAGE_SOS → s.currentStepIndex ≤ 18) ∧
    (s.currentMessage = MESSAGE_OK → s.currentStepIndex ≤ 12) ∧
    0 ≤ s.remainingTicks := by
  obtain ⟨h0, hlen, hrem, -⟩ := cursorInv_of_reachable s h
  refine ⟨h0, by rw [← selectTotal_eq_length]; exact hlen, ?_, ?_, hrem⟩
  · intro hm
    rw [hm] at hlen
    exact hlen
  · intro hm
    rw [hm] at hlen
    exact hlen

set_option maxRecDepth 100000 in
/-- Witness of C12 at the state reached by five ticks, two presses of
button 0 and 25 more ticks: the end of the SOS pass, index 18. -/
theorem cursor_invariant_witness :
    Reachable sosEndPending ∧
    0 ≤ sosEndPending.currentStepIndex ∧
    sosEndPending.currentStepIndex ≤ ((selectSteps sosEndPending.currentMessage).length : Int) ∧
    0 ≤ sosEndPending.remainingTicks :=
  ⟨⟨twoRequestsRun, sosWrites, by decide⟩,
    (cursor_invariant sosEndPending ⟨twoRequestsRun, sosWrites, by decide⟩).1,
    (cursor_invariant sosEndPending ⟨twoRequestsRun, sosWrites, by decide⟩).2.1,
    (cursor_invariant sosEndPending ⟨twoRequestsRun, sosWrites, by decide⟩).2.2.2.2⟩

/-- C13: speed invariant.  In every state reached from the initial state by
a finite sequence of `runStateMachine`, `gpioButtonFxn0` and `gpioButtonFxn1`
calls, `speedMultiplier` is 1, 2 or 3, so it is not 0 and the zero guard of the
commit leaves it as it is; and `gpioButtonFxn1` gives a value in `{1,2,3}`
from every state, whatever `speedMultiplier` was (0 and values above 3
included). -/
theorem speed_invariant (s : State) (h : Reachable s) :
    (s.speedMultiplier = 1 ∨ s.speedMultiplier = 2 ∨ s.speedMultiplier = 3) ∧
    s.speedMultiplier ≠ 0 ∧
    (if s.speedMultiplier = 0 then 1 else s.speedMultiplier) = s.speedMultiplier ∧
    (∀ t : State,
      (gpioButtonFxn1 t).1.speedMultiplier = 1 ∨ (gpioButtonFxn1 t).1.speedMultiplier = 2 ∨
        (gpioButtonFxn1 t).1.speedMultiplier = 3) := by
  obtain ⟨-, -, -, hsp⟩ := cursorInv_of_reachable s h
  have hne : s.speedMultiplier ≠ 0 := by omega
  exact ⟨hsp, hne, by simp [hne], gpioButtonFxn1_speed⟩

/-- Witness of C13 at the state reached by one tick and two presses of
button 1 (speed 3). -/
theorem speed_invariant_witness :
    Reachable { init with currentStepIndex := 1, speedMultiplier := 3 } ∧
    ({ init with currentStepIndex := 1, speedMultiplier := 3 } : State).speedMultiplier ≠ 0 :=
  ⟨⟨[Event.tick, Event.button1, Event.button1], [writeOf ⟨CONFIG_GPIO_LED_0, true, 1⟩],
      by decide⟩,
    (speed_invariant { init with currentStepIndex := 1, speedMultiplier := 3 }
      ⟨[Event.tick, Event.button1, Event.button1], [writeOf ⟨CONFIG_GPIO_LED_0, true, 1⟩],
        by decide⟩).2.1⟩

/-- C14: the switch request is consumed only at the boundary.  For every
state and every call of `runStateMachine` on it: if the call changes
`currentMessage`, or takes `buttonPressed` from true to false, then at entry
`remainingTicks <= 0` and `currentStepIndex >= totalSteps` of the active table;
on every other tick `currentMessage` and `buttonPressed` are unchanged.  The
call does return whenever the index is not negative. -/
theorem switch_consumed_only_at_boundary (s s1 : State) (w : List GpioWrite)
    (hrun : runStateMachine s = some (s1, w)) :
    ((s1.currentMessage ≠ s.currentMessage ∨
        (s.buttonPressed = true ∧ s1.buttonPressed = false)) →
      s.remainingTicks ≤ 0 ∧ selectTotal s.currentMessage ≤ s.currentStepIndex) ∧
    (¬ (s.remainingTicks ≤ 0 ∧ selectTotal s.currentMessage ≤ s.currentStepIndex) →
      s1.currentMessage = s.currentMessage ∧ s1.buttonPressed = s.buttonPressed) ∧
    (∀ t : State, 0 ≤ t.currentStepIndex → ∃ t1 v, runStateMachine t = some (t1, v)) := by
  refine ⟨?_, fun hnb => runStateMachine_keeps_message s s1 w hrun hnb, ?_⟩
  · intro hch
    by_contra hnb
    obtain ⟨k1, k2⟩ := runStateMachine_keeps_message s s1 w hrun hnb
    rcases hch with hch | ⟨hb, hb1⟩
    · exact hch k1
    · rw [k2, hb] at hb1
      cases hb1
  · intro t ht
    obtain ⟨t1, v, hv, -⟩ := runStateMachine_total t ht
    exact ⟨t1, v, hv⟩

/-- Witness of C14: the boundary tick at the end of SOS with a switch
pending changes the message, and it is a boundary state. -/
theorem switch_consumed_only_at_boundary_witness :
    runStateMachine sosEndPending
        = some ({ init with currentMessage := MESSAGE_OK }, []) ∧
    (({ init with currentMessage := MESSAGE_OK } : State).currentMessage
        ≠ sosEndPending.currentMessage →
      sosEndPending.remainingTicks ≤ 0 ∧
        selectTotal sosEndPending.currentMessage ≤ sosEndPending.currentStepIndex) :=
  ⟨by decide,
    fun hne => (switch_consumed_only_at_boundary sosEndPending
      { init with currentMessage := MESSAGE_OK } [] (by decide)).1 (Or.inl hne)⟩

/-- C16: totality.  On every reachable state `runStateMachine` returns.
Whenever it reads `steps[currentStepIndex]` (that is, `remainingTicks <= 0` and
`currentStepIndex < totalSteps`), the index is inside the selected table, the
bounds-checked read gives a step, and the product `duration * speedMultiplier`
lies between 1 and 9, far inside the range of `int` (whose upper end is at
least 32767); the incremented index is at most `totalSteps`. -/
theorem runStateMachine_total_on_reachable (s : State) (h : Reachable s) :
    (∃ s1 w, runStateMachine s = some (s1, w)) ∧
    (s.remainingTicks ≤ 0 → s.currentStepIndex < selectTotal s.currentMessage →
      0 ≤ s.currentStepIndex ∧
      s.currentStepIndex < ((selectSteps s.currentMessage).length : Int) ∧
      ∃ st, readStep (selectSteps s.currentMessage) s.currentStepIndex = some st ∧
        1 ≤ st.duration * (s.speedMultiplier : Int) ∧
        st.duration * (s.speedMultiplier : Int) ≤ 9 ∧
        st.duration * (s.speedMultiplier : Int) ≤ 32767 ∧
        s.currentStepIndex + 1 ≤ selectTotal s.currentMessage) := by
  obtain ⟨h0, -, -, hsp⟩ := cursorInv_of_reachable s h
  constructor
  · obtain ⟨s1, w, hrun, -⟩ := runStateMachine_total s h0
    exact ⟨s1, w, hrun⟩
  · intro _ hi
    have hi2 : s.currentStepIndex < ((selectSteps s.currentMessage).length : Int) := by
      rw [← selectTotal_eq_length]; exact hi
    obtain ⟨st, hread⟩ := readStep_some_of_range _ _ h0 hi2
    have hd := duration_pos_of_readStep _ _ _ hread
    have hd3 : st.duration ≤ 3 := duration_le_three_of_readStep _ _ _ hread
    have hk1 : (1 : Int) ≤ (s.speedMultiplier : Int) := by
      have : 1 ≤ s.speedMultiplier := by omega
      exact_mod_cast this
    have hk3 : (s.speedMultiplier : Int) ≤ 3 := by
      have : s.speedMultiplier ≤ 3 := by omega
      exact_mod_cast this
    have hlo : 1 ≤ st.duration * (s.speedMultiplier : Int) := by
      have := Int.mul_pos (show 0 < st.duration by omega)
        (show (0 : Int) < s.speedMultiplier by omega)
      omega
    have hhi : st.duration * (s.speedMultiplier : Int) ≤ 9 := by nlinarith
    exact ⟨h0, hi2, st, hread, hlo, hhi, by omega, by omega⟩

set_option maxRecDepth 100000 in
/-- Witness of C16 at the state reached by one tick and two presses of
button 1: about to commit SOS step 1 at speed 3. -/
theorem runStateMachine_total_on_reachable_witness :
    Reachable { init with currentStepIndex := 1, speedMultiplier := 3 } ∧
    ∃ s1 w, runStateMachine { init with currentStepIndex := 1, speedMultiplier := 3 }
      = some (s1, w) :=
  ⟨⟨[Event.tick, Event.button1, Event.button1], [writeOf ⟨CONFIG_GPIO_LED_0, true, 1⟩],
      by decide⟩,
    (runStateMachine_total_on_reachable { init with currentStepIndex := 1, speedMultiplier := 3 }
      ⟨[Event.tick, Event.button1, Event.button1], [writeOf ⟨CONFIG_GPIO_LED_0, true, 1⟩],
        by decide⟩).1⟩

/-- C17: commit tick.  From every state with `remainingTicks <= 0`,
`0 <= currentStepIndex < totalSteps` of the active table and
`speedMultiplier = k >= 1`, one call of `runStateMachine` makes exactly one
`GPIO_write`, of the `(led, state)` of the step at `currentStepIndex`,
increments `currentStepIndex`, sets `remainingTicks` to `duration * k - 1` and
leaves `currentMessage`, `buttonPressed` and `speedMultiplier` unchanged.  With
`duration = 1` and `k = 1` this leaves `remainingTicks = 0` and the next call
commits the next step (one write, index incremented) or, at the end of the
table, does the boundary reset (no write, index 0). -/
theorem commit_tick (s : State) (k : Nat) (hk : 1 ≤ k) (hs : s.speedMultiplier = k)
    (hr : s.remainingTicks ≤ 0) (h0 : 0 ≤ s.currentStepIndex)
    (hi : s.currentStepIndex < selectTotal s.currentMessage) :
    ∃ st s1, readStep (selectSteps s.currentMessage) s.currentStepIndex = some st ∧
      runStateMachine s = some (s1, [⟨st.led, st.state⟩]) ∧
      s1.currentStepIndex = s.currentStepIndex + 1 ∧
      s1.remainingTicks = st.duration * k - 1 ∧
      s1.currentMessage = s.currentMessage ∧
      s1.buttonPressed = s.buttonPressed ∧
      s1.speedMultiplier = s.speedMultiplier ∧
      (st.duration = 1 → k = 1 →
        s1.remainingTicks = 0 ∧
        ∃ s2 w2, runStateMachine s1 = some (s2, w2) ∧
          ((s1.currentStepIndex < selectTotal s1.currentMessage ∧
              ∃ st2, readStep (selectSteps s1.currentMessage) s1.currentStepIndex = some st2 ∧
                w2 = [⟨st2.led, st2.state⟩] ∧
                s2.currentStepIndex = s1.currentStepIndex + 1) ∨
            (selectTotal s1.currentMessage ≤ s1.currentStepIndex ∧ w2 = [] ∧
              s2.currentStepIndex = 0))) := by
  obtain ⟨st, hread⟩ := readStep_some_of_range (selectSteps s.currentMessage)
    s.currentStepIndex h0 (by rw [← selectTotal_eq_length]; exact hi)
  have hd := duration_pos_of_readStep _ _ _ hread
  obtain ⟨s1, hrun, e1, e2, e3, e4, e5⟩ := runStateMachine_commit_fields s st hr hi hread hd
  have hne : ¬ s.speedMultiplier = 0 := by omega
  simp only [hne, if_false] at e3 e5
  rw [writeOf_eq] at hrun
  refine ⟨st, s1, hread, hrun, e4, by rw [e5, hs], e1, e2, e3, ?_⟩
  intro hd1 hk1
  have hrem : s1.remainingTicks = 0 := by rw [e5, hs, hd1, hk1]; rfl
  refine ⟨hrem, ?_⟩
  have h10 : 0 ≤ s1.currentStepIndex := by omega
  by_cases hnext : s1.currentStepIndex < selectTotal s1.currentMessage
  · obtain ⟨st2, hread2⟩ := readStep_some_of_range (selectSteps s1.currentMessage)
      s1.currentStepIndex h10 (by rw [← selectTotal_eq_length]; exact hnext)
    obtain ⟨s2, hrun2, -, -, -, f4, -⟩ :=
      runStateMachine_commit_fields s1 st2 (by omega) hnext hread2
        (duration_pos_of_readStep _ _ _ hread2)
    rw [writeOf_eq] at hrun2
    exact ⟨s2, _, hrun2, Or.inl ⟨hnext, st2, hread2, rfl, f4⟩⟩
  · have hend : selectTotal s1.currentMessage ≤ s1.currentStepIndex := not_lt.mp hnext
    exact ⟨_, _, runStateMachine_boundary s1 (by omega) hend, Or.inr ⟨hend, rfl, rfl⟩⟩

/-- Witness of C17: the first dot of SOS (step 0, duration 1) committed at
speed 1 from the initial state. -/
theorem commit_tick_witness :
    ∃ st s1, readStep (selectSteps sosFirstDot.currentMessage) sosFirstDot.currentStepIndex
        = some st ∧
      runStateMachine sosFirstDot = some (s1, [⟨st.led, st.state⟩]) ∧
      s1.currentStepIndex = sosFirstDot.currentStepIndex + 1 :=
  (commit_tick sosFirstDot 1 (by decide) rfl (by decide) (by decide) (by decide)).elim
    fun st h => h.elim fun s1 h1 => ⟨st, s1, h1.1, h1.2.1, h1.2.2.1⟩

/-- C18: mid-step tick.  From every state with `remainingTicks > 0`, one call
of `runStateMachine` takes exactly 1 off `remainingTicks`, makes no
`GPIO_write` and leaves `currentStepIndex`, `currentMessage`, `buttonPressed`
and `speedMultiplier` unchanged. -/
theorem mid_step_tick (s : State) (h : 0 < s.remainingTicks) :
    ∃ s1, runStateMachine s = some (s1, []) ∧
      s1.remainingTicks = s.remainingTicks - 1 ∧
      s1.currentStepIndex = s.currentStepIndex ∧
      s1.currentMessage = s.currentMessage ∧
      s1.buttonPressed = s.buttonPressed ∧
      s1.speedMultiplier = s.speedMultiplier :=
  ⟨_, runStateMachine_hold s h, rfl, rfl, rfl, rfl, rfl⟩

/-- Witness of C18 in the middle of a dash of SOS with a switch pending. -/
theorem mid_step_tick_witness :
    0 < sosMidDash.remainingTicks ∧
    ∃ s1, runStateMachine sosMidDash = some (s1, []) ∧
      s1.remainingTicks = sosMidDash.remainingTicks - 1 ∧
      s1.currentStepIndex = sosMidDash.currentStepIndex ∧
      s1.currentMessage = sosMidDash.currentMessage ∧
      s1.buttonPressed = sosMidDash.buttonPressed ∧
      s1.speedMultiplier = sosMidDash.speedMultiplier :=
  ⟨by decide, mid_step_tick sosMidDash (by decide)⟩

/-- C15: step table contract.  `SOS_steps` has exactly 18 steps and
`OK_steps` exactly 12 (so do the constants `SOS_TOTAL_STEPS` and
`OK_TOTAL_STEPS`), neither is empty, every step of both has `duration >= 1`,
and the SOS durations in order are `[1,1,1,1,1,3, 3,1,3,1,3,3, 1,1,1,1,1,3]`.
With the tables held in memory, each of `runStateMachine`, `gpioButtonFxn0`
and `gpioButtonFxn1` leaves both tables as they were, and on the tables as
initialised it is the function of the same name on the other globals. -/
theorem step_table_contract (m : Memory) (e : Event) (s : State) :
    SOS_steps.length = 18 ∧ OK_steps.length = 12 ∧
    SOS_TOTAL_STEPS = 18 ∧ OK_TOTAL_STEPS = 12 ∧
    SOS_steps ≠ [] ∧ OK_steps ≠ [] ∧
    (∀ st ∈ SOS_steps, 1 ≤ st.duration) ∧ (∀ st ∈ OK_steps, 1 ≤ st.duration) ∧
    SOS_steps.map (fun st => st.duration)
      = [1, 1, 1, 1, 1, 3, 3, 1, 3, 1, 3, 3, 1, 1, 1, 1, 1, 3] ∧
    (stepMemory m e).map (fun p => (p.1.sosTable, p.1.okTable))
      = (stepMemory m e).map (fun _ => (m.sosTable, m.okTable)) ∧
    stepMemory { sosTable := SOS_steps, okTable := OK_steps, globals := s } e
      = (applyEvent s e).map (fun p =>
          ({ sosTable := SOS_steps, okTable := OK_steps, globals := p.1 }, p.2)) := by
  refine ⟨rfl, rfl, rfl, rfl, by decide, by decide, duration_pos_of_mem_SOS,
    duration_pos_of_mem_OK, by decide, ?_, ?_⟩
  · cases e with
    | tick =>
      simp only [stepMemory]
      cases runStateMachineOn m.sosTable m.okTable m.globals <;> rfl
    | button0 => rfl
    | button1 => rfl
  · cases e with
    | tick =>
      simp only [stepMemory, applyEvent, timerCallback, runStateMachineOn_tables]
    | button0 => rfl
    | button1 => rfl

set_option maxRecDepth 1000000 in
set_option maxHeartbeats 4000000 in
/-- C19: loop period.  With no button event and `speedMultiplier = k` in
`{1,2,3}`, `30*k + 1` ticks from the state (SOS, index 0, nothing remaining,
no switch pending) lead back to that state and no smaller positive number of
ticks does; the first `30*k` ticks hold the 18 steps (each written once and
followed by `duration*k - 1` ticks with no write) and the last one is the
boundary tick, with no write.  For OK the same holds with `26*k + 1` ticks and
12 steps.  At speed 1 the last SOS step is written on tick 28 and step 0 again
on tick 32, four ticks later. -/
theorem loop_period (k : Nat) (hk : k = 1 ∨ k = 2 ∨ k = 3) :
    tickLog (30 * k + 1) (sosStart k)
      = some (sosStart k, holdPatternAt k SOS_steps ++ [[]]) ∧
    (holdPatternAt k SOS_steps).length = 30 * k ∧
    (holdPatternAt k SOS_steps).flatten = SOS_steps.map writeOf ∧
    (∀ n, n < 30 * k + 1 → 0 < n →
      (tickLog n (sosStart k)).map Prod.fst ≠ some (sosStart k)) ∧
    tickLog (26 * k + 1) (okStart k)
      = some (okStart k, holdPatternAt k OK_steps ++ [[]]) ∧
    (holdPatternAt k OK_steps).length = 26 * k ∧
    (holdPatternAt k OK_steps).flatten = OK_steps.map writeOf ∧
    (∀ n, n < 26 * k + 1 → 0 < n →
      (tickLog n (okStart k)).map Prod.fst ≠ some (okStart k)) ∧
    (tickLog 32 (sosStart 1)).map (fun p => (writeTicks p.2).drop 17) = some [28, 32] ∧
    (tickLog 32 (sosStart 1)).map (fun p => (p.2.getLast?, p.1.currentStepIndex))
      = some (some [writeOf ⟨CONFIG_GPIO_LED_0, true, 1⟩], 1) := by
  rcases hk with rfl | rfl | rfl <;> decide

set_option maxRecDepth 1000000 in
set_option maxHeartbeats 4000000 in
/-- Witness of C19 at speed 2: the SOS loop closes after 61 ticks. -/
theorem loop_period_witness :
    (2 = 1 ∨ 2 = 2 ∨ 2 = 3) ∧
    tickLog (30 * 2 + 1) (sosStart 2)
      = some (sosStart 2, holdPatternAt 2 SOS_steps ++ [[]]) :=
  ⟨by decide, (loop_period 2 (by decide)).1⟩

/-- C20: the two outputs are never on together.  Taking the level of an
output to be the last value written to it, and starting from the levels
`mainThread` leaves (LED 0 on, LED 1 off) with the initial globals, every
finite sequence of `runStateMachine`, `gpioButtonFxn0` and `gpioButtonFxn1`
calls runs through, and after it LED 0 and LED 1 are not both on. -/
theorem leds_never_both_on (es : List Event) :
    startupLevels = ⟨true, false⟩ ∧
    ∃ s ws, runEvents init es = some (s, ws) ∧
      ¬ ((applyWrites startupLevels ws).led0 = true ∧
          (applyWrites startupLevels ws).led1 = true) := by
  obtain ⟨s, ws, hrun, hinv⟩ := ledInv_runEvents es init startupLevels ledInv_init
  exact ⟨rfl, s, ws, hrun, ledInv_not_both s _ hinv⟩

end Morse
